import Mathlib

/-!
Verification of the technical-indicator engine of LocalFinData.

The development shallowly embeds the two indicator producers of the
repository, scripts/calculate_indicators_batch.py (the batch engine
calculate_all_indicators together with the retention sweep
process_single_file) and scripts/generate_stock_data_with_indicators.py,
over exact rational arithmetic.

Cell values of a pandas float series are modelled by the type EV: a finite
rational, positive or negative infinity, or NaN, with arithmetic mirroring
IEEE-754 / numpy semantics (division by zero gives a signed infinity or NaN,
NaN propagates, comparisons with NaN are false).  NaN plays the role of the
sentinel / undefined value of the specification.  The square root used by
the rolling standard deviation is kept as an explicit function parameter
(sq : Rat to Rat), since exact square roots leave the rationals; every
theorem below is proved uniformly in that parameter.
-/

namespace LocalFinData

/-- Extended value: a pandas float cell.  fin q is an exact finite value,
pinf / ninf the two infinities, nan the undefined sentinel. -/
inductive EV where
  | fin (q : ℚ)
  | pinf
  | ninf
  | nan
deriving DecidableEq, Repr

namespace EV

/-- IEEE-style addition on extended values. -/
def add : EV → EV → EV
  | fin a, fin b => fin (a + b)
  | fin _, pinf => pinf
  | fin _, ninf => ninf
  | pinf, fin _ => pinf
  | ninf, fin _ => ninf
  | pinf, pinf => pinf
  | ninf, ninf => ninf
  | _, _ => nan

/-- IEEE-style negation. -/
def neg : EV → EV
  | fin a => fin (-a)
  | pinf => ninf
  | ninf => pinf
  | nan => nan

/-- IEEE-style subtraction. -/
def sub (a b : EV) : EV := add a (neg b)

/-- IEEE-style multiplication (zero times infinity is NaN). -/
def mul : EV → EV → EV
  | fin a, fin b => fin (a * b)
  | fin a, pinf => if a = 0 then nan else if 0 < a then pinf else ninf
  | fin a, ninf => if a = 0 then nan else if 0 < a then ninf else pinf
  | pinf, fin b => if b = 0 then nan else if 0 < b then pinf else ninf
  | ninf, fin b => if b = 0 then nan else if 0 < b then ninf else pinf
  | pinf, pinf => pinf
  | pinf, ninf => ninf
  | ninf, pinf => ninf
  | ninf, ninf => pinf
  | _, _ => nan

/-- IEEE-style division: finite / 0 is a signed infinity (NaN for 0 / 0),
finite / infinity is 0, infinity / infinity is NaN. -/
def div : EV → EV → EV
  | fin a, fin b =>
      if b = 0 then (if a = 0 then nan else if 0 < a then pinf else ninf)
      else fin (a / b)
  | fin _, pinf => fin 0
  | fin _, ninf => fin 0
  | pinf, fin b => if 0 ≤ b then pinf else ninf
  | ninf, fin b => if 0 ≤ b then ninf else pinf
  | _, _ => nan

/-- IEEE-style absolute value. -/
def abs : EV → EV
  | fin a => fin |a|
  | pinf => pinf
  | ninf => pinf
  | nan => nan

/-- Strict comparison; any comparison involving NaN is false. -/
def lt : EV → EV → Bool
  | fin a, fin b => a < b
  | fin _, pinf => true
  | ninf, fin _ => true
  | ninf, pinf => true
  | _, _ => false

/-- Row-wise minimum with pandas skipna semantics: NaN values are ignored
unless every operand is NaN. -/
def minSk (a b : EV) : EV :=
  if a = nan then b else if b = nan then a else if lt b a then b else a

/-- Row-wise maximum with pandas skipna semantics. -/
def maxSk (a b : EV) : EV :=
  if a = nan then b else if b = nan then a else if lt a b then b else a

end EV

/-- Lift a rational series (raw input data) to extended values. -/
def mapFinL (l : List ℚ) : List EV := l.map EV.fin

/-- Pointwise (elementwise) map over a series. -/
def pmap (g : EV → EV) (xs : List EV) : List EV := xs.map g

/-- Pointwise combination of two aligned series. -/
def zip2 (g : EV → EV → EV) (xs ys : List EV) : List EV := List.zipWith g xs ys

/-- Pointwise combination of three aligned series. -/
def zip3 (g : EV → EV → EV → EV) (xs ys zs : List EV) : List EV :=
  List.zipWith (fun x p => g x p.1 p.2) xs (List.zipWith Prod.mk ys zs)

/-- pandas Series.shift(k): k leading NaN rows, the rest shifted down,
the length preserved. -/
def shiftN (k : ℕ) (xs : List EV) : List EV :=
  (List.replicate k EV.nan ++ xs).take xs.length

/-- pandas Series.shift(): row t of the result is row t-1 of the input,
row 0 becomes NaN. -/
def shiftE (xs : List EV) : List EV := shiftN 1 xs

/-- pandas Series.diff(): elementwise difference with the previous row. -/
def diffE (xs : List EV) : List EV := zip2 EV.sub xs (shiftE xs)

/-- pandas Series.pct_change(): relative difference with the previous row. -/
def pctChangeE (xs : List EV) : List EV := zip2 EV.div (diffE xs) (shiftE xs)

/-- Sequential pass producing one output per input, threading a state:
the shape of every stateful computation of the engine (exponential moving
averages, cumulative sums, OBV, SAR). -/
def scanOut (step : σ → α → σ × β) : σ → List α → List β
  | _, [] => []
  | s, x :: xs => (step s x).2 :: scanOut step (step s x).1 xs

/-- One step of pandas Series.cumsum() (skipna: a NaN cell stays NaN but
does not poison the running sum). -/
def cumStep (acc v : EV) : EV × EV :=
  if v = EV.nan then (acc, EV.nan) else (EV.add acc v, EV.add acc v)

/-- pandas Series.cumsum(). -/
def cumsumE (xs : List EV) : List EV := scanOut cumStep (EV.fin 0) xs

/-- One step of pandas ewm(alpha, adjust=False).mean(): the state is the
current weighted average (NaN before the first observation) and the
accumulated old weight.  A NaN observation keeps the current average but
decays the old weight; after a NaN average the next observation reseeds. -/
def ewmStep (a : ℚ) : (EV × ℚ) → EV → (EV × ℚ) × EV
  | (avg, ow), cur =>
    if avg = EV.nan then
      if cur = EV.nan then ((EV.nan, ow), EV.nan) else ((cur, ow), cur)
    else
      if cur = EV.nan then ((avg, ow * (1 - a)), avg)
      else
        let ow2 := ow * (1 - a)
        let avg2 := EV.div (EV.add (EV.mul (EV.fin ow2) avg) (EV.mul (EV.fin a) cur))
          (EV.fin (ow2 + a))
        ((avg2, 1), avg2)

/-- pandas Series.ewm(alpha, adjust=False).mean(). -/
def ewmMean (a : ℚ) (xs : List EV) : List EV := scanOut (ewmStep a) (EV.nan, 1) xs

/-- Series.ewm(span=s, adjust=False).mean(): alpha = 2 / (span + 1). -/
def emaS (span : ℕ) (xs : List EV) : List EV := ewmMean (2 / (span + 1)) xs

/-- Whether a window contains a NaN cell. -/
def hasNan : List EV → Bool
  | [] => false
  | EV.nan :: _ => true
  | _ :: t => hasNan t

/-- pandas rolling(window=w) with min_periods = w followed by an aggregation
g over the raw trailing window (oldest element first).  Output row i is NaN
until the window has filled (i + 1 < w) and whenever the window contains a
NaN cell (nobs < min_periods); otherwise it is g applied to the window. -/
def rollingW (w : ℕ) (g : List EV → EV) (xs : List EV) : List EV :=
  (List.range xs.length).map (fun i =>
    if hasNan ((xs.take (i + 1)).drop (i + 1 - w)) then EV.nan
    else if w ≤ i + 1 then g ((xs.take (i + 1)).drop (i + 1 - w))
    else EV.nan)

/-- Sum of a window. -/
def sumE (l : List EV) : EV := l.foldl EV.add (EV.fin 0)

/-- rolling(w).sum(). -/
def rollingSum (w : ℕ) (xs : List EV) : List EV := rollingW w sumE xs

/-- rolling(w).mean(). -/
def rollingMean (w : ℕ) (xs : List EV) : List EV :=
  rollingW w (fun l => EV.div (sumE l) (EV.fin w)) xs

/-- rolling(w).max() (windows that reach the aggregation are NaN-free). -/
def rollingMax (w : ℕ) (xs : List EV) : List EV :=
  rollingW w (fun l => l.foldl EV.maxSk EV.nan) xs

/-- rolling(w).min(). -/
def rollingMin (w : ℕ) (xs : List EV) : List EV :=
  rollingW w (fun l => l.foldl EV.minSk EV.nan) xs

/-- Extract the rationals of a window; None if any cell is not finite. -/
def ratsOf : List EV → Option (List ℚ)
  | [] => some []
  | EV.fin q :: t => (ratsOf t).map (fun r => q :: r)
  | _ => none

/-- Sample standard deviation (ddof = 1) of a window, as used by
rolling(w).std(); the square root is the explicit parameter sq. -/
def stdG (sq : ℚ → ℚ) (l : List EV) : EV :=
  match ratsOf l with
  | some qs =>
      if qs.length ≤ 1 then EV.nan
      else
        let m : ℚ := qs.sum / qs.length
        EV.fin (sq (((qs.map (fun x => (x - m) ^ 2)).sum) / ((qs.length : ℚ) - 1)))
  | none => EV.nan

/-- rolling(w).std() with ddof = 1. -/
def rollingStd (sq : ℚ → ℚ) (w : ℕ) (xs : List EV) : List EV :=
  rollingW w (stdG sq) xs

/-- Linearly weighted mean of a window: np.dot(x, 1..w) / sum(1..w),
oldest value gets weight 1, the newest gets weight w. -/
def wmaG (l : List EV) : EV :=
  EV.div (sumE (List.zipWith (fun x i => EV.mul x (EV.fin (i + 1))) l
      (List.range l.length)))
    (EV.fin ((l.length : ℚ) * ((l.length : ℚ) + 1) / 2))

/-- Mean absolute deviation of a window, as in the CCI computation. -/
def madG (l : List EV) : EV :=
  let m := EV.div (sumE l) (EV.fin l.length)
  EV.div (sumE (l.map (fun x => EV.abs (EV.sub x m)))) (EV.fin l.length)

/-- numpy argmax over a window: index of the first occurrence of the
maximum value, as a finite extended value. -/
def argmaxG (l : List EV) : EV :=
  match l with
  | [] => EV.nan
  | x :: t =>
      EV.fin (((t.foldl (fun (s : EV × ℕ × ℕ) v =>
        if EV.lt s.1 v then (v, s.2.2 + 1, s.2.2 + 1) else (s.1, s.2.1, s.2.2 + 1))
        (x, 0, 0)).2.1 : ℕ))

/-- numpy argmin over a window: index of the first occurrence of the
minimum value. -/
def argminG (l : List EV) : EV :=
  match l with
  | [] => EV.nan
  | x :: t =>
      EV.fin (((t.foldl (fun (s : EV × ℕ × ℕ) v =>
        if EV.lt v s.1 then (v, s.2.2 + 1, s.2.2 + 1) else (s.1, s.2.1, s.2.2 + 1))
        (x, 0, 0)).2.1 : ℕ))

/-!  The OHLCV time-series frame and its base series.  Raw input columns
hold exact rationals (CSV numbers); open is renamed openP because open is
a Lean keyword. -/

/-- A single-ticker OHLCV frame: the five required price/volume columns,
aligned by row index. -/
structure Frame where
  openP : List ℚ
  high : List ℚ
  low : List ℚ
  close : List ℚ
  volume : List ℚ
deriving DecidableEq, Repr

/-- Well-formedness: the five columns have a common length. -/
def Frame.WF (df : Frame) : Prop :=
  df.openP.length = df.close.length ∧ df.high.length = df.close.length ∧
    df.low.length = df.close.length ∧ df.volume.length = df.close.length

instance (df : Frame) : Decidable df.WF := by unfold Frame.WF; infer_instance

/-- Truncation of a frame to its first n rows. -/
def frameTake (n : ℕ) (df : Frame) : Frame :=
  ⟨df.openP.take n, df.high.take n, df.low.take n, df.close.take n, df.volume.take n⟩

/-- Number of rows (length of the close column). -/
def Frame.len (df : Frame) : ℕ := df.close.length

def closeE (df : Frame) : List EV := mapFinL df.close
def highE (df : Frame) : List EV := mapFinL df.high
def lowE (df : Frame) : List EV := mapFinL df.low
def volE (df : Frame) : List EV := mapFinL df.volume

/-!  Columns of calculate_all_indicators (calculate_indicators_batch.py),
one definition per computed series, in source order.  Scalar constants are
written on the side on which the source writes them. -/

/-- macd = ewm(span 12) of close minus ewm(span 26) of close. -/
def macdC (df : Frame) : List EV := zip2 EV.sub (emaS 12 (closeE df)) (emaS 26 (closeE df))

/-- macd_signal = ewm(span 9) of macd. -/
def macdSignalC (df : Frame) : List EV := emaS 9 (macdC df)

/-- macd_hist = macd minus macd_signal. -/
def macdHistC (df : Frame) : List EV := zip2 EV.sub (macdC df) (macdSignalC df)

/-- ema_p = ewm(span p, adjust=False).mean() of close. -/
def emaC (p : ℕ) (df : Frame) : List EV := emaS p (closeE df)

/-- sma_p = rolling(p).mean() of close. -/
def smaC (p : ℕ) (df : Frame) : List EV := rollingMean p (closeE df)

/-- wma_p = rolling(p).apply(dot with weights 1..p / sum of weights). -/
def wmaC (p : ℕ) (df : Frame) : List EV := rollingW p wmaG (closeE df)

/-- dema_p = 2 * ema - ema(ema). -/
def demaC (p : ℕ) (df : Frame) : List EV :=
  zip2 EV.sub (pmap (EV.mul (EV.fin 2)) (emaS p (closeE df)))
    (emaS p (emaS p (closeE df)))

/-- tema_p = 3 * ema1 - 3 * ema2 + ema3. -/
def temaC (p : ℕ) (df : Frame) : List EV :=
  zip2 EV.add
    (zip2 EV.sub (pmap (EV.mul (EV.fin 3)) (emaS p (closeE df)))
      (pmap (EV.mul (EV.fin 3)) (emaS p (emaS p (closeE df)))))
    (emaS p (emaS p (emaS p (closeE df))))

/-- trix = pct_change of the triple ewm(span 15) of close, times 100. -/
def trixC (df : Frame) : List EV :=
  pmap (fun v => EV.mul v (EV.fin 100))
    (pctChangeE (emaS 15 (emaS 15 (emaS 15 (closeE df)))))

/-- trix_signal = ewm(span 9) of trix. -/
def trixSignalC (df : Frame) : List EV := emaS 9 (trixC df)

/-- delta = close.diff(). -/
def deltaC (df : Frame) : List EV := diffE (closeE df)

/-- gain = delta.where(delta > 0, 0), then rolling(p).mean(). -/
def rsiGainC (p : ℕ) (df : Frame) : List EV :=
  rollingMean p (pmap (fun v => if EV.lt (EV.fin 0) v then v else EV.fin 0) (deltaC df))

/-- loss = -(delta.where(delta < 0, 0)), then rolling(p).mean(). -/
def rsiLossC (p : ℕ) (df : Frame) : List EV :=
  rollingMean p (pmap (fun v => EV.neg (if EV.lt v (EV.fin 0) then v else EV.fin 0)) (deltaC df))

/-- rsi_p = 100 - 100 / (1 + gain / loss). -/
def rsiC (p : ℕ) (df : Frame) : List EV :=
  pmap (fun r => EV.sub (EV.fin 100) (EV.div (EV.fin 100) (EV.add (EV.fin 1) r)))
    (zip2 EV.div (rsiGainC p df) (rsiLossC p df))

/-- typical price tp = (high + low + close) / 3. -/
def typicalC (df : Frame) : List EV :=
  pmap (fun v => EV.div v (EV.fin 3))
    (zip2 EV.add (zip2 EV.add (highE df) (lowE df)) (closeE df))

/-- cci_p = (tp - sma(tp, p)) / (0.015 * mad(tp, p)). -/
def cciC (p : ℕ) (df : Frame) : List EV :=
  zip2 EV.div (zip2 EV.sub (typicalC df) (rollingMean p (typicalC df)))
    (pmap (EV.mul (EV.fin (3 / 200))) (rollingW p madG (typicalC df)))

/-- roc_p = ((close - close.shift(p)) / close.shift(p)) * 100. -/
def rocC (p : ℕ) (df : Frame) : List EV :=
  pmap (fun v => EV.mul v (EV.fin 100))
    (zip2 EV.div (zip2 EV.sub (closeE df) (shiftN p (closeE df))) (shiftN p (closeE df)))

/-- mom_p = close - close.shift(p). -/
def momC (p : ℕ) (df : Frame) : List EV :=
  zip2 EV.sub (closeE df) (shiftN p (closeE df))

/-- willr_p = -100 * ((rolling max of high - close) / (max - min)). -/
def willrC (p : ℕ) (df : Frame) : List EV :=
  pmap (EV.mul (EV.fin (-100)))
    (zip2 EV.div (zip2 EV.sub (rollingMax p (highE df)) (closeE df))
      (zip2 EV.sub (rollingMax p (highE df)) (rollingMin p (lowE df))))

/-- stoch_k_p = 100 * ((close - rolling min of low) / (max - min)). -/
def stochKC (p : ℕ) (df : Frame) : List EV :=
  pmap (EV.mul (EV.fin 100))
    (zip2 EV.div (zip2 EV.sub (closeE df) (rollingMin p (lowE df)))
      (zip2 EV.sub (rollingMax p (highE df)) (rollingMin p (lowE df))))

/-- stoch_d_p = rolling(3).mean() of stoch_k_p. -/
def stochDC (p : ℕ) (df : Frame) : List EV := rollingMean 3 (stochKC p df)

/-- stoch_j_p = 3 * k - 2 * d. -/
def stochJC (p : ℕ) (df : Frame) : List EV :=
  zip2 EV.sub (pmap (EV.mul (EV.fin 3)) (stochKC p df))
    (pmap (EV.mul (EV.fin 2)) (stochDC p df))

/-- Buying pressure bp = close - min(low, close.shift()) (row-wise,
skipna). -/
def bpC (df : Frame) : List EV :=
  zip2 EV.sub (closeE df) (zip2 EV.minSk (lowE df) (shiftE (closeE df)))

/-- True range tr = max(high - low, abs(high - prev close),
abs(low - prev close)) (row-wise, skipna). -/
def trC (df : Frame) : List EV :=
  zip2 EV.maxSk
    (zip2 EV.maxSk (zip2 EV.sub (highE df) (lowE df))
      (pmap EV.abs (zip2 EV.sub (highE df) (shiftE (closeE df)))))
    (pmap EV.abs (zip2 EV.sub (lowE df) (shiftE (closeE df))))

/-- avg_n = rolling(n).sum() of bp over rolling(n).sum() of tr. -/
def uoAvgC (n : ℕ) (df : Frame) : List EV :=
  zip2 EV.div (rollingSum n (bpC df)) (rollingSum n (trC df))

/-- uo = 100 * ((4 * avg7 + 2 * avg14 + avg28) / 7). -/
def uoC (df : Frame) : List EV :=
  pmap (EV.mul (EV.fin 100))
    (pmap (fun v => EV.div v (EV.fin 7))
      (zip2 EV.add
        (zip2 EV.add (pmap (EV.mul (EV.fin 4)) (uoAvgC 7 df))
          (pmap (EV.mul (EV.fin 2)) (uoAvgC 14 df)))
        (uoAvgC 28 df)))

/-- bb_middle_p = rolling(p).mean() of close. -/
def bbMidC (p : ℕ) (df : Frame) : List EV := rollingMean p (closeE df)

/-- bb_upper_p = sma + std * 2. -/
def bbUpC (sq : ℚ → ℚ) (p : ℕ) (df : Frame) : List EV :=
  zip2 EV.add (bbMidC p df)
    (pmap (fun v => EV.mul v (EV.fin 2)) (rollingStd sq p (closeE df)))

/-- bb_lower_p = sma - std * 2. -/
def bbLoC (sq : ℚ → ℚ) (p : ℕ) (df : Frame) : List EV :=
  zip2 EV.sub (bbMidC p df)
    (pmap (fun v => EV.mul v (EV.fin 2)) (rollingStd sq p (closeE df)))

/-- bb_width_p = ((upper - lower) / middle) * 100. -/
def bbWidthC (sq : ℚ → ℚ) (p : ℕ) (df : Frame) : List EV :=
  pmap (fun v => EV.mul v (EV.fin 100))
    (zip2 EV.div (zip2 EV.sub (bbUpC sq p df) (bbLoC sq p df)) (bbMidC p df))

/-- bb_pct_p = (close - lower) / (upper - lower). -/
def bbPctC (sq : ℚ → ℚ) (p : ℕ) (df : Frame) : List EV :=
  zip2 EV.div (zip2 EV.sub (closeE df) (bbLoC sq p df))
    (zip2 EV.sub (bbUpC sq p df) (bbLoC sq p df))

/-- atr_p = rolling(p).mean() of the true range. -/
def atrC (p : ℕ) (df : Frame) : List EV := rollingMean p (trC df)

/-- std_p = rolling(p).std() of close. -/
def stdC (sq : ℚ → ℚ) (p : ℕ) (df : Frame) : List EV := rollingStd sq p (closeE df)

/-- kc_middle = ewm(span 20) of close (note: of close, not of the typical
price). -/
def kcMidC (df : Frame) : List EV := emaS 20 (closeE df)

/-- kc_upper = kc_middle + 2 * atr_14. -/
def kcUpC (df : Frame) : List EV :=
  zip2 EV.add (kcMidC df) (pmap (EV.mul (EV.fin 2)) (atrC 14 df))

/-- kc_lower = kc_middle - 2 * atr_14. -/
def kcLoC (df : Frame) : List EV :=
  zip2 EV.sub (kcMidC df) (pmap (EV.mul (EV.fin 2)) (atrC 14 df))

/-- dc_upper = rolling(20).max() of high. -/
def dcUpC (df : Frame) : List EV := rollingMax 20 (highE df)

/-- dc_lower = rolling(20).min() of low. -/
def dcLoC (df : Frame) : List EV := rollingMin 20 (lowE df)

/-- dc_middle = (dc_upper + dc_lower) / 2. -/
def dcMidC (df : Frame) : List EV :=
  pmap (fun v => EV.div v (EV.fin 2)) (zip2 EV.add (dcUpC df) (dcLoC df))

/-- The OBV loop: obv starts at 0; volume is added when close rose,
subtracted when it fell, and the value carries over otherwise. -/
def obvAux (pc acc : ℚ) : List (ℚ × ℚ) → List ℚ
  | [] => []
  | (c, v) :: t =>
      let acc2 := if pc < c then acc + v else if c < pc then acc - v else acc
      acc2 :: obvAux c acc2 t

/-- obv over the row sequence of (close, volume) pairs. -/
def obvZ : List (ℚ × ℚ) → List ℚ
  | [] => []
  | (c0, _) :: t => 0 :: obvAux c0 0 t

/-- obv over the raw close and volume columns. -/
def obvL (c v : List ℚ) : List ℚ := obvZ (c.zip v)

/-- The obv column (integer-valued, hence not subject to the float
rounding pass). -/
def obvC (df : Frame) : List EV := mapFinL (obvL df.close df.volume)

/-- vol_ma_p = rolling(p).mean() of volume. -/
def volMaC (p : ℕ) (df : Frame) : List EV := rollingMean p (volE df)

/-- vol_ratio = volume / rolling(20).mean() of volume. -/
def volRatioC (df : Frame) : List EV :=
  zip2 EV.div (volE df) (rollingMean 20 (volE df))

/-- Raw money flow mf = tp * volume. -/
def mfC (df : Frame) : List EV := zip2 EV.mul (typicalC df) (volE df)

/-- positive_mf = mf.where(tp > tp.shift(), 0), rolling(14).sum(). -/
def posMfC (df : Frame) : List EV :=
  rollingSum 14 (zip3 (fun m t ts => if EV.lt ts t then m else EV.fin 0)
    (mfC df) (typicalC df) (shiftE (typicalC df)))

/-- negative_mf = mf.where(tp < tp.shift(), 0), rolling(14).sum(). -/
def negMfC (df : Frame) : List EV :=
  rollingSum 14 (zip3 (fun m t ts => if EV.lt t ts then m else EV.fin 0)
    (mfC df) (typicalC df) (shiftE (typicalC df)))

/-- mfi = 100 - 100 / (1 + positive_mf / negative_mf). -/
def mfiC (df : Frame) : List EV :=
  pmap (fun r => EV.sub (EV.fin 100) (EV.div (EV.fin 100) (EV.add (EV.fin 1) r)))
    (zip2 EV.div (posMfC df) (negMfC df))

/-- Money flow multiplier mfm = ((close - low) - (high - close)) /
(high - low). -/
def clvC (df : Frame) : List EV :=
  zip2 EV.div
    (zip2 EV.sub (zip2 EV.sub (closeE df) (lowE df)) (zip2 EV.sub (highE df) (closeE df)))
    (zip2 EV.sub (highE df) (lowE df))

/-- ad_line = cumsum of mfm * volume (no NaN filling in the batch
engine). -/
def adLineC (df : Frame) : List EV :=
  cumsumE (zip2 EV.mul (clvC df) (volE df))

/-- vwap = cumsum(tp * volume) / cumsum(volume). -/
def vwapC (df : Frame) : List EV :=
  zip2 EV.div (cumsumE (zip2 EV.mul (typicalC df) (volE df))) (cumsumE (volE df))

/-- cmf = rolling(20).sum() of mfm * volume over rolling(20).sum() of
volume. -/
def cmfC (df : Frame) : List EV :=
  zip2 EV.div (rollingSum 20 (zip2 EV.mul (clvC df) (volE df)))
    (rollingSum 20 (volE df))

/-- pos_dm = high.diff().where(high.diff() > low-side and > 0, 0). -/
def posDmC (df : Frame) : List EV :=
  zip2 (fun u v => if EV.lt v u && EV.lt (EV.fin 0) u then u else EV.fin 0)
    (diffE (highE df)) (pmap EV.neg (diffE (lowE df)))

/-- neg_dm, symmetrically for -low.diff(). -/
def negDmC (df : Frame) : List EV :=
  zip2 (fun v u => if EV.lt u v && EV.lt (EV.fin 0) v then v else EV.fin 0)
    (pmap EV.neg (diffE (lowE df))) (diffE (highE df))

/-- pos_di = 100 * (rolling(14).mean() of pos_dm / atr_14). -/
def posDiC (df : Frame) : List EV :=
  pmap (EV.mul (EV.fin 100)) (zip2 EV.div (rollingMean 14 (posDmC df)) (atrC 14 df))

/-- neg_di = 100 * (rolling(14).mean() of neg_dm / atr_14). -/
def negDiC (df : Frame) : List EV :=
  pmap (EV.mul (EV.fin 100)) (zip2 EV.div (rollingMean 14 (negDmC df)) (atrC 14 df))

/-- dx = 100 * abs(pos_di - neg_di) / (pos_di + neg_di). -/
def dxC (df : Frame) : List EV :=
  zip2 EV.div (pmap (EV.mul (EV.fin 100)) (pmap EV.abs (zip2 EV.sub (posDiC df) (negDiC df))))
    (zip2 EV.add (posDiC df) (negDiC df))

/-- adx = rolling(14).mean() of dx. -/
def adxC (df : Frame) : List EV := rollingMean 14 (dxC df)

/-- aroon_up = rolling(26).apply(argmax) of high / 25 * 100. -/
def aroonUpC (df : Frame) : List EV :=
  pmap (fun v => EV.mul (EV.div v (EV.fin 25)) (EV.fin 100))
    (rollingW 26 argmaxG (highE df))

/-- aroon_down = rolling(26).apply(argmin) of low / 25 * 100. -/
def aroonDownC (df : Frame) : List EV :=
  pmap (fun v => EV.mul (EV.div v (EV.fin 25)) (EV.fin 100))
    (rollingW 26 argminG (lowE df))

/-- aroon_osc = aroon_up - aroon_down. -/
def aroonOscC (df : Frame) : List EV := zip2 EV.sub (aroonUpC df) (aroonDownC df)

/-- pivot = (prev high + prev low + prev close) / 3. -/
def pivotC (df : Frame) : List EV :=
  pmap (fun v => EV.div v (EV.fin 3))
    (zip2 EV.add (zip2 EV.add (shiftE (highE df)) (shiftE (lowE df))) (shiftE (closeE df)))

/-- r1 = 2 * pivot - prev low. -/
def r1C (df : Frame) : List EV :=
  zip2 EV.sub (pmap (EV.mul (EV.fin 2)) (pivotC df)) (shiftE (lowE df))

/-- r2 = pivot + (prev high - prev low). -/
def r2C (df : Frame) : List EV :=
  zip2 EV.add (pivotC df) (zip2 EV.sub (shiftE (highE df)) (shiftE (lowE df)))

/-- s1 = 2 * pivot - prev high. -/
def s1C (df : Frame) : List EV :=
  zip2 EV.sub (pmap (EV.mul (EV.fin 2)) (pivotC df)) (shiftE (highE df))

/-- s2 = pivot - (prev high - prev low). -/
def s2C (df : Frame) : List EV :=
  zip2 EV.sub (pivotC df) (zip2 EV.sub (shiftE (highE df)) (shiftE (lowE df)))

/-- Parabolic SAR state: trend direction, prior SAR, extreme point,
acceleration factor, and the trailing one and two bars' lows and highs. -/
structure SarSt where
  up : Bool
  sar : ℚ
  ep : ℚ
  af : ℚ
  pl1 : ℚ
  pl2 : ℚ
  ph1 : ℚ
  ph2 : ℚ
deriving DecidableEq, Repr

/-- One bar of the Parabolic SAR loop (af start 0.02, increment 0.02,
cap 0.2); the extreme point is updated before the flip test, exactly as in
the source loop. -/
def sarStep : Option SarSt → ℚ × ℚ → Option SarSt × ℚ
  | none, (h, l) => (some ⟨true, l, h, 1/50, l, l, h, h⟩, l)
  | some st, (h, l) =>
    if st.up then
      let s1 := st.sar + st.af * (st.ep - st.sar)
      let s2 := min s1 (min st.pl1 st.pl2)
      let ep2 := if st.ep < h then h else st.ep
      let af2 := if st.ep < h then min (st.af + 1/50) (1/5) else st.af
      if l < s2 then (some ⟨false, ep2, l, 1/50, l, st.pl1, h, st.ph1⟩, ep2)
      else (some ⟨true, s2, ep2, af2, l, st.pl1, h, st.ph1⟩, s2)
    else
      let s1 := st.sar - st.af * (st.sar - st.ep)
      let s2 := max s1 (max st.ph1 st.ph2)
      let ep2 := if l < st.ep then l else st.ep
      let af2 := if l < st.ep then min (st.af + 1/50) (1/5) else st.af
      if s2 < h then (some ⟨true, ep2, h, 1/50, l, st.pl1, h, st.ph1⟩, ep2)
      else (some ⟨false, s2, ep2, af2, l, st.pl1, h, st.ph1⟩, s2)

/-- Parabolic SAR over the raw high and low columns. -/
def sarL (h l : List ℚ) : List ℚ := scanOut sarStep none (h.zip l)

/-- The sar column. -/
def sarC (df : Frame) : List EV := mapFinL (sarL df.high df.low)

/-- price_change = close.diff(). -/
def priceChangeC (df : Frame) : List EV := diffE (closeE df)

/-- price_change_pct = close.pct_change() * 100. -/
def priceChangePctC (df : Frame) : List EV :=
  pmap (fun v => EV.mul v (EV.fin 100)) (pctChangeE (closeE df))

/-- median_price = (high + low) / 2. -/
def medianC (df : Frame) : List EV :=
  pmap (fun v => EV.div v (EV.fin 2)) (zip2 EV.add (highE df) (lowE df))

/-- weighted_close = (high + low + 2 * close) / 4. -/
def weightedCloseC (df : Frame) : List EV :=
  pmap (fun v => EV.div v (EV.fin 4))
    (zip2 EV.add (zip2 EV.add (highE df) (lowE df)) (pmap (EV.mul (EV.fin 2)) (closeE df)))

/-- intraday_intensity = ((2 * close - high - low) / (high - low)) *
volume. -/
def intradayC (df : Frame) : List EV :=
  zip2 EV.mul
    (zip2 EV.div
      (zip2 EV.sub (zip2 EV.sub (pmap (EV.mul (EV.fin 2)) (closeE df)) (highE df)) (lowE df))
      (zip2 EV.sub (highE df) (lowE df)))
    (volE df)

/-!  The two cells of generate_stock_data_with_indicators.py that replace
NaN by 0 (clv.fillna(0) for the A/D line, and the intraday intensity
fillna(0)). -/

/-- Series.fillna(0): NaN cells become 0, all other cells (including the
infinities) are kept. -/
def fillna0 (v : EV) : EV := if v = EV.nan then EV.fin 0 else v

/-- The generator script's ad_line: clv is NaN-filled with 0 before the
cumulative sum. -/
def adLineGenC (df : Frame) : List EV :=
  cumsumE (zip2 EV.mul (pmap fillna0 (clvC df)) (volE df))

/-- The generator script's intraday_intensity: computed as in the batch
engine, then NaN-filled with 0. -/
def intradayGenC (df : Frame) : List EV := pmap fillna0 (intradayC df)

/-!  The final rounding pass: every float indicator column is rounded to
2 decimals (numpy round, half to even); NaN and the infinities round to
themselves.  The obv column is integer-typed (volume is integral), so the
float-dtype rounding does not touch it. -/

/-- Round half to even, numpy style. -/
def roundEven (q : ℚ) : ℤ :=
  let f := ⌊q⌋
  let r := q - f
  if r < 1/2 then f else if 1/2 < r then f + 1 else if f % 2 = 0 then f else f + 1

/-- Rounding to 2 decimal digits. -/
def round2 (q : ℚ) : ℚ := (roundEven (q * 100) : ℚ) / 100

/-- Rounding on extended values. -/
def roundE : EV → EV
  | EV.fin q => EV.fin (round2 q)
  | v => v

/-- Rounding of a whole column. -/
def roundCol (xs : List EV) : List EV := pmap roundE xs

def emaPeriods : List ℕ := [3, 5, 8, 10, 12, 15, 20, 26, 30, 35, 40, 45, 50, 60, 100, 200]
def smaPeriods : List ℕ := [5, 10, 15, 20, 30, 50, 60, 100, 200]
def wmaPeriods : List ℕ := [10, 20, 30]
def rsiPeriods : List ℕ := [6, 9, 12, 14, 21, 24]

/-- The full indicator dictionary of calculate_all_indicators, in source
insertion order, after the 2-decimal rounding pass (obv excepted, being
integer-typed). -/
def battery (sq : ℚ → ℚ) (df : Frame) : List (String × List EV) :=
  [("macd", roundCol (macdC df)),
   ("macd_signal", roundCol (macdSignalC df)),
   ("macd_hist", roundCol (macdHistC df))]
  ++ emaPeriods.map (fun p => (s!"ema_{p}", roundCol (emaC p df)))
  ++ smaPeriods.map (fun p => (s!"sma_{p}", roundCol (smaC p df)))
  ++ wmaPeriods.map (fun p => (s!"wma_{p}", roundCol (wmaC p df)))
  ++ wmaPeriods.map (fun p => (s!"dema_{p}", roundCol (demaC p df)))
  ++ wmaPeriods.map (fun p => (s!"tema_{p}", roundCol (temaC p df)))
  ++ [("trix", roundCol (trixC df)), ("trix_signal", roundCol (trixSignalC df))]
  ++ rsiPeriods.map (fun p => (s!"rsi_{p}", roundCol (rsiC p df)))
  ++ [("cci_14", roundCol (cciC 14 df)), ("cci_20", roundCol (cciC 20 df)),
      ("roc_12", roundCol (rocC 12 df)), ("roc_25", roundCol (rocC 25 df)),
      ("mom_10", roundCol (momC 10 df)), ("mom_14", roundCol (momC 14 df)),
      ("mom_20", roundCol (momC 20 df)),
      ("willr_14", roundCol (willrC 14 df)), ("willr_21", roundCol (willrC 21 df)),
      ("stoch_k_9", roundCol (stochKC 9 df)), ("stoch_d_9", roundCol (stochDC 9 df)),
      ("stoch_j_9", roundCol (stochJC 9 df)),
      ("stoch_k_14", roundCol (stochKC 14 df)), ("stoch_d_14", roundCol (stochDC 14 df)),
      ("stoch_j_14", roundCol (stochJC 14 df)),
      ("uo", roundCol (uoC df)),
      ("bb_middle_20", roundCol (bbMidC 20 df)), ("bb_upper_20", roundCol (bbUpC sq 20 df)),
      ("bb_lower_20", roundCol (bbLoC sq 20 df)), ("bb_width_20", roundCol (bbWidthC sq 20 df)),
      ("bb_pct_20", roundCol (bbPctC sq 20 df)),
      ("bb_middle_50", roundCol (bbMidC 50 df)), ("bb_upper_50", roundCol (bbUpC sq 50 df)),
      ("bb_lower_50", roundCol (bbLoC sq 50 df)), ("bb_width_50", roundCol (bbWidthC sq 50 df)),
      ("bb_pct_50", roundCol (bbPctC sq 50 df)),
      ("atr_7", roundCol (atrC 7 df)), ("atr_14", roundCol (atrC 14 df)),
      ("atr_21", roundCol (atrC 21 df)),
      ("std_10", roundCol (stdC sq 10 df)), ("std_20", roundCol (stdC sq 20 df)),
      ("std_30", roundCol (stdC sq 30 df)),
      ("kc_middle", roundCol (kcMidC df)), ("kc_upper", roundCol (kcUpC df)),
      ("kc_lower", roundCol (kcLoC df)),
      ("dc_upper", roundCol (dcUpC df)), ("dc_lower", roundCol (dcLoC df)),
      ("dc_middle", roundCol (dcMidC df)),
      ("obv", obvC df),
      ("vol_ma_5", roundCol (volMaC 5 df)), ("vol_ma_10", roundCol (volMaC 10 df)),
      ("vol_ma_20", roundCol (volMaC 20 df)),
      ("vol_ratio", roundCol (volRatioC df)),
      ("mfi", roundCol (mfiC df)),
      ("ad_line", roundCol (adLineC df)),
      ("vwap", roundCol (vwapC df)),
      ("cmf", roundCol (cmfC df)),
      ("adx", roundCol (adxC df)), ("pos_di", roundCol (posDiC df)),
      ("neg_di", roundCol (negDiC df)),
      ("aroon_up", roundCol (aroonUpC df)), ("aroon_down", roundCol (aroonDownC df)),
      ("aroon_osc", roundCol (aroonOscC df)),
      ("pivot", roundCol (pivotC df)), ("r1", roundCol (r1C df)), ("r2", roundCol (r2C df)),
      ("s1", roundCol (s1C df)), ("s2", roundCol (s2C df)),
      ("sar", roundCol (sarC df)),
      ("price_change", roundCol (priceChangeC df)),
      ("price_change_pct", roundCol (priceChangePctC df)),
      ("true_range", roundCol (trC df)),
      ("typical_price", roundCol (typicalC df)),
      ("median_price", roundCol (medianC df)),
      ("weighted_close", roundCol (weightedCloseC df)),
      ("intraday_intensity", roundCol (intradayC df))]

/-!  The batch engine entry point and the retention sweep of
calculate_indicators_batch.py.  A persisted CSV is modelled by a RawFrame:
every column is optional; dates are day numbers (the column is assumed
parsable, which is the only case the claims concern). -/

/-- A persisted per-ticker CSV as read from disk. -/
structure RawFrame where
  date : Option (List ℤ)
  openP : Option (List ℚ)
  high : Option (List ℚ)
  low : Option (List ℚ)
  close : Option (List ℚ)
  volume : Option (List ℚ)
deriving DecidableEq, Repr

/-- The required price columns absent from the frame, in the order the
source checks them. -/
def requiredMissing (rf : RawFrame) : List String :=
  (if rf.openP = none then ["open"] else []) ++
  (if rf.high = none then ["high"] else []) ++
  (if rf.low = none then ["low"] else []) ++
  (if rf.close = none then ["close"] else []) ++
  (if rf.volume = none then ["volume"] else [])

/-- The OHLCV frame underlying a complete RawFrame. -/
def RawFrame.toFrame (rf : RawFrame) : Frame :=
  ⟨rf.openP.getD [], rf.high.getD [], rf.low.getD [], rf.close.getD [], rf.volume.getD []⟩

/-- Failure cases of the engine and the sweep.  engineMissing is the
ValueError raised by calculate_all_indicators for the first missing
required column; missingCols is the sweep's own check listing all missing
price columns; emptyFrame stands for the IndexError the source raises on a
zero-row frame (the obv and sar loops index row 0). -/
inductive ErrKind where
  | missingDate
  | engineMissing (col : String)
  | missingCols (cols : List String)
  | emptyFrame
deriving DecidableEq, Repr

/-- calculate_all_indicators: validates the required columns first (raising
before any computation), then computes the full battery. -/
def calculate_all_indicators (sq : ℚ → ℚ) (rf : RawFrame) :
    Except ErrKind (List (String × List EV)) :=
  match requiredMissing rf with
  | c :: _ => .error (.engineMissing c)
  | [] =>
      if rf.toFrame.len = 0 then .error .emptyFrame
      else .ok (battery sq rf.toFrame)

/-- Outcome label of process_single_file. -/
inductive PStatus where
  | deleted
  | updated
  | err (k : ErrKind)
deriving DecidableEq, Repr

/-- Effect of process_single_file on the file on disk. -/
inductive FileEffect where
  | unchanged
  | removed
  | written (orig : RawFrame) (inds : List (String × List EV))
deriving DecidableEq, Repr

/-- The non-stale tail of process_single_file: check the price columns,
then compute indicators and rewrite the file. -/
def processCols (sq : ℚ → ℚ) (rf : RawFrame) : PStatus × FileEffect :=
  match requiredMissing rf with
  | [] =>
      match calculate_all_indicators sq rf with
      | .ok cols => (.updated, .written rf cols)
      | .error k => (.err k, .unchanged)
  | cs => (.err (.missingCols cs), .unchanged)

/-- process_single_file: missing date column is an error; then the
staleness check (delete when the newest date is strictly older than the
cutoff — this precedes the price-column validation); then indicator
computation and rewrite.  An empty date column compares false against the
cutoff (NaT) and falls through to the column checks. -/
def process_single_file (sq : ℚ → ℚ) (rf : RawFrame) (cutoff : ℤ) :
    PStatus × FileEffect :=
  match rf.date with
  | none => (.err .missingDate, .unchanged)
  | some ds =>
      match ds.max? with
      | some m => if m < cutoff then (.deleted, .removed) else processCols sq rf
      | none => processCols sq rf

/-- The sweep's cutoff: 180 days before today. -/
def sweepCutoff (today : ℤ) : ℤ := today - 180

/-!  Causality infrastructure: every series operator of the engine commutes
with truncation to the first n rows.  Each lemma has the shape
f (xs.take n) = (f xs).take n; chaining them pushes the truncation from the
raw input columns to the outside of any composed column. -/

theorem mapFinL_take (n : ℕ) (l : List ℚ) : mapFinL (l.take n) = (mapFinL l).take n :=
  List.map_take EV.fin l n

theorem pmap_take (g : EV → EV) (n : ℕ) (xs : List EV) :
    pmap g (xs.take n) = (pmap g xs).take n :=
  List.map_take g xs n

theorem zip2_take (g : EV → EV → EV) (n : ℕ) (xs ys : List EV) :
    zip2 g (xs.take n) (ys.take n) = (zip2 g xs ys).take n :=
  List.take_zipWith.symm

theorem zip3_take (g : EV → EV → EV → EV) (n : ℕ) (xs ys zs : List EV) :
    zip3 g (xs.take n) (ys.take n) (zs.take n) = (zip3 g xs ys zs).take n := by
  unfold zip3
  rw [← List.take_zipWith, ← List.take_zipWith]

theorem shiftN_take (k n : ℕ) (xs : List EV) :
    shiftN k (xs.take n) = (shiftN k xs).take n := by
  simp only [shiftN, List.length_take, List.take_take, List.take_append_eq_append_take,
    List.take_replicate, List.length_replicate]
  congr 2 <;> omega

theorem shiftE_take (n : ℕ) (xs : List EV) :
    shiftE (xs.take n) = (shiftE xs).take n :=
  shiftN_take 1 n xs

theorem scanOut_take {σ α β : Type _} (step : σ → α → σ × β) (s : σ) (l : List α) (n : ℕ) :
    scanOut step s (l.take n) = (scanOut step s l).take n := by
  induction l generalizing s n with
  | nil => simp [scanOut]
  | cons x t ih =>
      cases n with
      | zero => simp [scanOut]
      | succ m => simp [scanOut, ih]

theorem rollingW_take (w n : ℕ) (g : List EV → EV) (xs : List EV) :
    rollingW w g (xs.take n) = (rollingW w g xs).take n := by
  unfold rollingW
  rw [List.length_take, ← List.map_take, List.take_range]
  apply List.map_congr_left
  intro i hi
  rw [List.mem_range] at hi
  have h1 : (xs.take n).take (i + 1) = xs.take (i + 1) := by
    rw [List.take_take]
    congr 1
    omega
  rw [h1]

theorem cumsumE_take (n : ℕ) (xs : List EV) : cumsumE (xs.take n) = (cumsumE xs).take n :=
  scanOut_take cumStep (EV.fin 0) xs n

theorem ewmMean_take (a : ℚ) (n : ℕ) (xs : List EV) :
    ewmMean a (xs.take n) = (ewmMean a xs).take n :=
  scanOut_take (ewmStep a) (EV.nan, 1) xs n

theorem emaS_take (s n : ℕ) (xs : List EV) : emaS s (xs.take n) = (emaS s xs).take n :=
  ewmMean_take (2 / (s + 1)) n xs

theorem rollingSum_take (w n : ℕ) (xs : List EV) :
    rollingSum w (xs.take n) = (rollingSum w xs).take n :=
  rollingW_take w n _ xs

theorem rollingMean_take (w n : ℕ) (xs : List EV) :
    rollingMean w (xs.take n) = (rollingMean w xs).take n :=
  rollingW_take w n _ xs

theorem rollingMax_take (w n : ℕ) (xs : List EV) :
    rollingMax w (xs.take n) = (rollingMax w xs).take n :=
  rollingW_take w n _ xs

theorem rollingMin_take (w n : ℕ) (xs : List EV) :
    rollingMin w (xs.take n) = (rollingMin w xs).take n :=
  rollingW_take w n _ xs

theorem rollingStd_take (sq : ℚ → ℚ) (w n : ℕ) (xs : List EV) :
    rollingStd sq w (xs.take n) = (rollingStd sq w xs).take n :=
  rollingW_take w n _ xs

theorem diffE_take (n : ℕ) (xs : List EV) : diffE (xs.take n) = (diffE xs).take n := by
  unfold diffE
  rw [shiftE_take, zip2_take]

theorem pctChangeE_take (n : ℕ) (xs : List EV) :
    pctChangeE (xs.take n) = (pctChangeE xs).take n := by
  unfold pctChangeE
  rw [diffE_take, shiftE_take, zip2_take]

theorem obvAux_take (l : List (ℚ × ℚ)) : ∀ (pc acc : ℚ) (n : ℕ),
    obvAux pc acc (l.take n) = (obvAux pc acc l).take n := by
  induction l with
  | nil => intro pc acc n; simp [obvAux]
  | cons x t ih =>
      intro pc acc n
      cases n with
      | zero => simp [obvAux]
      | succ m =>
          obtain ⟨c, v⟩ := x
          simp only [List.take_succ_cons, obvAux, ih]

theorem obvZ_take (l : List (ℚ × ℚ)) (n : ℕ) : obvZ (l.take n) = (obvZ l).take n := by
  cases l with
  | nil => simp [obvZ]
  | cons x t =>
      cases n with
      | zero => simp [obvZ]
      | succ m =>
          obtain ⟨c, v⟩ := x
          simp only [List.take_succ_cons, obvZ, obvAux_take]

theorem obvL_take (n : ℕ) (c v : List ℚ) :
    obvL (c.take n) (v.take n) = (obvL c v).take n := by
  unfold obvL
  have hz : (c.take n).zip (v.take n) = (c.zip v).take n := by
    simp [List.zip_eq_zipWith, List.take_zipWith]
  rw [hz, obvZ_take]

theorem sarL_take (n : ℕ) (h l : List ℚ) :
    sarL (h.take n) (l.take n) = (sarL h l).take n := by
  unfold sarL
  have hz : (h.take n).zip (l.take n) = (h.zip l).take n := by
    simp [List.zip_eq_zipWith, List.take_zipWith]
  rw [hz, scanOut_take]

theorem roundCol_take (n : ℕ) (xs : List EV) :
    roundCol (xs.take n) = (roundCol xs).take n :=
  pmap_take roundE n xs

theorem frameTake_close (n : ℕ) (df : Frame) : (frameTake n df).close = df.close.take n := rfl

theorem frameTake_high (n : ℕ) (df : Frame) : (frameTake n df).high = df.high.take n := rfl

theorem frameTake_low (n : ℕ) (df : Frame) : (frameTake n df).low = df.low.take n := rfl

theorem frameTake_vol (n : ℕ) (df : Frame) : (frameTake n df).volume = df.volume.take n := rfl

theorem closeE_ft (n : ℕ) (df : Frame) : closeE (frameTake n df) = (closeE df).take n :=
  mapFinL_take n df.close

theorem highE_ft (n : ℕ) (df : Frame) : highE (frameTake n df) = (highE df).take n :=
  mapFinL_take n df.high

theorem lowE_ft (n : ℕ) (df : Frame) : lowE (frameTake n df) = (lowE df).take n :=
  mapFinL_take n df.low

theorem volE_ft (n : ℕ) (df : Frame) : volE (frameTake n df) = (volE df).take n :=
  mapFinL_take n df.volume

/-!  Per-column truncation lemmas: each indicator column of the batch
engine commutes with frame truncation. -/

theorem macdC_ft (n : ℕ) (df : Frame) : macdC (frameTake n df) = (macdC df).take n := by
  simp only [macdC, closeE_ft, emaS_take, zip2_take]

theorem macdSignalC_ft (n : ℕ) (df : Frame) :
    macdSignalC (frameTake n df) = (macdSignalC df).take n := by
  simp only [macdSignalC, macdC_ft, emaS_take]

theorem macdHistC_ft (n : ℕ) (df : Frame) :
    macdHistC (frameTake n df) = (macdHistC df).take n := by
  simp only [macdHistC, macdC_ft, macdSignalC_ft, zip2_take]

theorem emaC_ft (p n : ℕ) (df : Frame) : emaC p (frameTake n df) = (emaC p df).take n := by
  simp only [emaC, closeE_ft, emaS_take]

theorem smaC_ft (p n : ℕ) (df : Frame) : smaC p (frameTake n df) = (smaC p df).take n := by
  simp only [smaC, closeE_ft, rollingMean_take]

theorem wmaC_ft (p n : ℕ) (df : Frame) : wmaC p (frameTake n df) = (wmaC p df).take n := by
  simp only [wmaC, closeE_ft, rollingW_take]

theorem demaC_ft (p n : ℕ) (df : Frame) : demaC p (frameTake n df) = (demaC p df).take n := by
  simp only [demaC, closeE_ft, emaS_take, pmap_take, zip2_take]

theorem temaC_ft (p n : ℕ) (df : Frame) : temaC p (frameTake n df) = (temaC p df).take n := by
  simp only [temaC, closeE_ft, emaS_take, pmap_take, zip2_take]

theorem trixC_ft (n : ℕ) (df : Frame) : trixC (frameTake n df) = (trixC df).take n := by
  simp only [trixC, closeE_ft, emaS_take, pctChangeE_take, pmap_take]

theorem trixSignalC_ft (n : ℕ) (df : Frame) :
    trixSignalC (frameTake n df) = (trixSignalC df).take n := by
  simp only [trixSignalC, trixC_ft, emaS_take]

theorem deltaC_ft (n : ℕ) (df : Frame) : deltaC (frameTake n df) = (deltaC df).take n := by
  simp only [deltaC, closeE_ft, diffE_take]

theorem rsiGainC_ft (p n : ℕ) (df : Frame) :
    rsiGainC p (frameTake n df) = (rsiGainC p df).take n := by
  simp only [rsiGainC, deltaC_ft, pmap_take, rollingMean_take]

theorem rsiLossC_ft (p n : ℕ) (df : Frame) :
    rsiLossC p (frameTake n df) = (rsiLossC p df).take n := by
  simp only [rsiLossC, deltaC_ft, pmap_take, rollingMean_take]

theorem rsiC_ft (p n : ℕ) (df : Frame) : rsiC p (frameTake n df) = (rsiC p df).take n := by
  simp only [rsiC, rsiGainC_ft, rsiLossC_ft, zip2_take, pmap_take]

theorem typicalC_ft (n : ℕ) (df : Frame) :
    typicalC (frameTake n df) = (typicalC df).take n := by
  simp only [typicalC, highE_ft, lowE_ft, closeE_ft, zip2_take, pmap_take]

theorem cciC_ft (p n : ℕ) (df : Frame) : cciC p (frameTake n df) = (cciC p df).take n := by
  simp only [cciC, typicalC_ft, rollingMean_take, rollingW_take, pmap_take, zip2_take]

theorem rocC_ft (p n : ℕ) (df : Frame) : rocC p (frameTake n df) = (rocC p df).take n := by
  simp only [rocC, closeE_ft, shiftN_take, zip2_take, pmap_take]

theorem momC_ft (p n : ℕ) (df : Frame) : momC p (frameTake n df) = (momC p df).take n := by
  simp only [momC, closeE_ft, shiftN_take, zip2_take]

theorem willrC_ft (p n : ℕ) (df : Frame) :
    willrC p (frameTake n df) = (willrC p df).take n := by
  simp only [willrC, closeE_ft, highE_ft, lowE_ft, rollingMax_take, rollingMin_take,
    zip2_take, pmap_take]

theorem stochKC_ft (p n : ℕ) (df : Frame) :
    stochKC p (frameTake n df) = (stochKC p df).take n := by
  simp only [stochKC, closeE_ft, highE_ft, lowE_ft, rollingMax_take, rollingMin_take,
    zip2_take, pmap_take]

theorem stochDC_ft (p n : ℕ) (df : Frame) :
    stochDC p (frameTake n df) = (stochDC p df).take n := by
  simp only [stochDC, stochKC_ft, rollingMean_take]

theorem stochJC_ft (p n : ℕ) (df : Frame) :
    stochJC p (frameTake n df) = (stochJC p df).take n := by
  simp only [stochJC, stochKC_ft, stochDC_ft, pmap_take, zip2_take]

theorem bpC_ft (n : ℕ) (df : Frame) : bpC (frameTake n df) = (bpC df).take n := by
  simp only [bpC, closeE_ft, lowE_ft, shiftE_take, zip2_take]

theorem trC_ft (n : ℕ) (df : Frame) : trC (frameTake n df) = (trC df).take n := by
  simp only [trC, closeE_ft, highE_ft, lowE_ft, shiftE_take, zip2_take, pmap_take]

theorem uoAvgC_ft (m n : ℕ) (df : Frame) :
    uoAvgC m (frameTake n df) = (uoAvgC m df).take n := by
  simp only [uoAvgC, bpC_ft, trC_ft, rollingSum_take, zip2_take]

theorem uoC_ft (n : ℕ) (df : Frame) : uoC (frameTake n df) = (uoC df).take n := by
  simp only [uoC, uoAvgC_ft, pmap_take, zip2_take]

theorem bbMidC_ft (p n : ℕ) (df : Frame) :
    bbMidC p (frameTake n df) = (bbMidC p df).take n := by
  simp only [bbMidC, closeE_ft, rollingMean_take]

theorem bbUpC_ft (sq : ℚ → ℚ) (p n : ℕ) (df : Frame) :
    bbUpC sq p (frameTake n df) = (bbUpC sq p df).take n := by
  simp only [bbUpC, bbMidC_ft, closeE_ft, rollingStd_take, pmap_take, zip2_take]

theorem bbLoC_ft (sq : ℚ → ℚ) (p n : ℕ) (df : Frame) :
    bbLoC sq p (frameTake n df) = (bbLoC sq p df).take n := by
  simp only [bbLoC, bbMidC_ft, closeE_ft, rollingStd_take, pmap_take, zip2_take]

theorem bbWidthC_ft (sq : ℚ → ℚ) (p n : ℕ) (df : Frame) :
    bbWidthC sq p (frameTake n df) = (bbWidthC sq p df).take n := by
  simp only [bbWidthC, bbUpC_ft, bbLoC_ft, bbMidC_ft, zip2_take, pmap_take]

theorem bbPctC_ft (sq : ℚ → ℚ) (p n : ℕ) (df : Frame) :
    bbPctC sq p (frameTake n df) = (bbPctC sq p df).take n := by
  simp only [bbPctC, bbUpC_ft, bbLoC_ft, closeE_ft, zip2_take]

theorem atrC_ft (p n : ℕ) (df : Frame) : atrC p (frameTake n df) = (atrC p df).take n := by
  simp only [atrC, trC_ft, rollingMean_take]

theorem stdC_ft (sq : ℚ → ℚ) (p n : ℕ) (df : Frame) :
    stdC sq p (frameTake n df) = (stdC sq p df).take n := by
  simp only [stdC, closeE_ft, rollingStd_take]

theorem kcMidC_ft (n : ℕ) (df : Frame) : kcMidC (frameTake n df) = (kcMidC df).take n := by
  simp only [kcMidC, closeE_ft, emaS_take]

theorem kcUpC_ft (n : ℕ) (df : Frame) : kcUpC (frameTake n df) = (kcUpC df).take n := by
  simp only [kcUpC, kcMidC_ft, atrC_ft, pmap_take, zip2_take]

theorem kcLoC_ft (n : ℕ) (df : Frame) : kcLoC (frameTake n df) = (kcLoC df).take n := by
  simp only [kcLoC, kcMidC_ft, atrC_ft, pmap_take, zip2_take]

theorem dcUpC_ft (n : ℕ) (df : Frame) : dcUpC (frameTake n df) = (dcUpC df).take n := by
  simp only [dcUpC, highE_ft, rollingMax_take]

theorem dcLoC_ft (n : ℕ) (df : Frame) : dcLoC (frameTake n df) = (dcLoC df).take n := by
  simp only [dcLoC, lowE_ft, rollingMin_take]

theorem dcMidC_ft (n : ℕ) (df : Frame) : dcMidC (frameTake n df) = (dcMidC df).take n := by
  simp only [dcMidC, dcUpC_ft, dcLoC_ft, zip2_take, pmap_take]

theorem obvC_ft (n : ℕ) (df : Frame) : obvC (frameTake n df) = (obvC df).take n := by
  simp only [obvC, frameTake_close, frameTake_vol, obvL_take, mapFinL_take]

theorem volMaC_ft (p n : ℕ) (df : Frame) :
    volMaC p (frameTake n df) = (volMaC p df).take n := by
  simp only [volMaC, volE_ft, rollingMean_take]

theorem volRatioC_ft (n : ℕ) (df : Frame) :
    volRatioC (frameTake n df) = (volRatioC df).take n := by
  simp only [volRatioC, volE_ft, rollingMean_take, zip2_take]

theorem mfC_ft (n : ℕ) (df : Frame) : mfC (frameTake n df) = (mfC df).take n := by
  simp only [mfC, typicalC_ft, volE_ft, zip2_take]

theorem posMfC_ft (n : ℕ) (df : Frame) : posMfC (frameTake n df) = (posMfC df).take n := by
  simp only [posMfC, mfC_ft, typicalC_ft, shiftE_take, zip3_take, rollingSum_take]

theorem negMfC_ft (n : ℕ) (df : Frame) : negMfC (frameTake n df) = (negMfC df).take n := by
  simp only [negMfC, mfC_ft, typicalC_ft, shiftE_take, zip3_take, rollingSum_take]

theorem mfiC_ft (n : ℕ) (df : Frame) : mfiC (frameTake n df) = (mfiC df).take n := by
  simp only [mfiC, posMfC_ft, negMfC_ft, zip2_take, pmap_take]

theorem clvC_ft (n : ℕ) (df : Frame) : clvC (frameTake n df) = (clvC df).take n := by
  simp only [clvC, closeE_ft, highE_ft, lowE_ft, zip2_take]

theorem adLineC_ft (n : ℕ) (df : Frame) : adLineC (frameTake n df) = (adLineC df).take n := by
  simp only [adLineC, clvC_ft, volE_ft, zip2_take, cumsumE_take]

theorem vwapC_ft (n : ℕ) (df : Frame) : vwapC (frameTake n df) = (vwapC df).take n := by
  simp only [vwapC, typicalC_ft, volE_ft, zip2_take, cumsumE_take]

theorem cmfC_ft (n : ℕ) (df : Frame) : cmfC (frameTake n df) = (cmfC df).take n := by
  simp only [cmfC, clvC_ft, volE_ft, zip2_take, rollingSum_take]

theorem posDmC_ft (n : ℕ) (df : Frame) : posDmC (frameTake n df) = (posDmC df).take n := by
  simp only [posDmC, highE_ft, lowE_ft, diffE_take, pmap_take, zip2_take]

theorem negDmC_ft (n : ℕ) (df : Frame) : negDmC (frameTake n df) = (negDmC df).take n := by
  simp only [negDmC, highE_ft, lowE_ft, diffE_take, pmap_take, zip2_take]

theorem posDiC_ft (n : ℕ) (df : Frame) : posDiC (frameTake n df) = (posDiC df).take n := by
  simp only [posDiC, posDmC_ft, atrC_ft, rollingMean_take, zip2_take, pmap_take]

theorem negDiC_ft (n : ℕ) (df : Frame) : negDiC (frameTake n df) = (negDiC df).take n := by
  simp only [negDiC, negDmC_ft, atrC_ft, rollingMean_take, zip2_take, pmap_take]

theorem dxC_ft (n : ℕ) (df : Frame) : dxC (frameTake n df) = (dxC df).take n := by
  simp only [dxC, posDiC_ft, negDiC_ft, zip2_take, pmap_take]

theorem adxC_ft (n : ℕ) (df : Frame) : adxC (frameTake n df) = (adxC df).take n := by
  simp only [adxC, dxC_ft, rollingMean_take]

theorem aroonUpC_ft (n : ℕ) (df : Frame) :
    aroonUpC (frameTake n df) = (aroonUpC df).take n := by
  simp only [aroonUpC, highE_ft, rollingW_take, pmap_take]

theorem aroonDownC_ft (n : ℕ) (df : Frame) :
    aroonDownC (frameTake n df) = (aroonDownC df).take n := by
  simp only [aroonDownC, lowE_ft, rollingW_take, pmap_take]

theorem aroonOscC_ft (n : ℕ) (df : Frame) :
    aroonOscC (frameTake n df) = (aroonOscC df).take n := by
  simp only [aroonOscC, aroonUpC_ft, aroonDownC_ft, zip2_take]

theorem pivotC_ft (n : ℕ) (df : Frame) : pivotC (frameTake n df) = (pivotC df).take n := by
  simp only [pivotC, highE_ft, lowE_ft, closeE_ft, shiftE_take, zip2_take, pmap_take]

theorem r1C_ft (n : ℕ) (df : Frame) : r1C (frameTake n df) = (r1C df).take n := by
  simp only [r1C, pivotC_ft, lowE_ft, shiftE_take, zip2_take, pmap_take]

theorem r2C_ft (n : ℕ) (df : Frame) : r2C (frameTake n df) = (r2C df).take n := by
  simp only [r2C, pivotC_ft, highE_ft, lowE_ft, shiftE_take, zip2_take]

theorem s1C_ft (n : ℕ) (df : Frame) : s1C (frameTake n df) = (s1C df).take n := by
  simp only [s1C, pivotC_ft, highE_ft, shiftE_take, zip2_take, pmap_take]

theorem s2C_ft (n : ℕ) (df : Frame) : s2C (frameTake n df) = (s2C df).take n := by
  simp only [s2C, pivotC_ft, highE_ft, lowE_ft, shiftE_take, zip2_take]

theorem sarC_ft (n : ℕ) (df : Frame) : sarC (frameTake n df) = (sarC df).take n := by
  simp only [sarC, frameTake_high, frameTake_low, sarL_take, mapFinL_take]

theorem priceChangeC_ft (n : ℕ) (df : Frame) :
    priceChangeC (frameTake n df) = (priceChangeC df).take n := by
  simp only [priceChangeC, closeE_ft, diffE_take]

theorem priceChangePctC_ft (n : ℕ) (df : Frame) :
    priceChangePctC (frameTake n df) = (priceChangePctC df).take n := by
  simp only [priceChangePctC, closeE_ft, pctChangeE_take, pmap_take]

theorem medianC_ft (n : ℕ) (df : Frame) : medianC (frameTake n df) = (medianC df).take n := by
  simp only [medianC, highE_ft, lowE_ft, zip2_take, pmap_take]

theorem weightedCloseC_ft (n : ℕ) (df : Frame) :
    weightedCloseC (frameTake n df) = (weightedCloseC df).take n := by
  simp only [weightedCloseC, highE_ft, lowE_ft, closeE_ft, zip2_take, pmap_take]

theorem intradayC_ft (n : ℕ) (df : Frame) :
    intradayC (frameTake n df) = (intradayC df).take n := by
  simp only [intradayC, highE_ft, lowE_ft, closeE_ft, volE_ft, zip2_take, pmap_take]

/-- Truncating the input frame truncates every column of the battery:
the heart of the causality property. -/
theorem battery_take (sq : ℚ → ℚ) (n : ℕ) (df : Frame) :
    battery sq (frameTake n df) =
      (battery sq df).map (fun p => (p.1, p.2.take n)) := by
  simp only [battery, List.map_append, List.map_map, List.map_cons, List.map_nil,
    Function.comp_def,
    macdC_ft, macdSignalC_ft, macdHistC_ft, emaC_ft, smaC_ft, wmaC_ft, demaC_ft, temaC_ft,
    trixC_ft, trixSignalC_ft, rsiC_ft, cciC_ft, rocC_ft, momC_ft, willrC_ft,
    stochKC_ft, stochDC_ft, stochJC_ft, uoC_ft, bbMidC_ft, bbUpC_ft, bbLoC_ft,
    bbWidthC_ft, bbPctC_ft, atrC_ft, stdC_ft, kcMidC_ft, kcUpC_ft, kcLoC_ft,
    dcUpC_ft, dcLoC_ft, dcMidC_ft, obvC_ft, volMaC_ft, volRatioC_ft, mfiC_ft,
    adLineC_ft, vwapC_ft, cmfC_ft, adxC_ft, posDiC_ft, negDiC_ft,
    aroonUpC_ft, aroonDownC_ft, aroonOscC_ft, pivotC_ft, r1C_ft, r2C_ft, s1C_ft, s2C_ft,
    sarC_ft, priceChangeC_ft, priceChangePctC_ft, trC_ft, typicalC_ft, medianC_ft,
    weightedCloseC_ft, intradayC_ft, roundCol_take]

/-- Value of a named indicator column at a row index. -/
def valueAt (cols : List (String × List EV)) (name : String) (t : ℕ) : Option EV :=
  (cols.lookup name).bind (fun col => col[t]?)

theorem lookup_map_take (l : List (String × List EV)) (k : String) (n : ℕ) :
    (l.map (fun p => (p.1, p.2.take n))).lookup k = (l.lookup k).map (fun c => c.take n) := by
  induction l with
  | nil => simp
  | cons x t ih =>
      obtain ⟨a, b⟩ := x
      simp only [List.map_cons, List.lookup]
      cases h : (k == a) <;> simp [h, ih]

theorem take_succ_getElem (t : ℕ) (xs ys : List EV) (h : xs.take (t + 1) = ys.take (t + 1)) :
    xs[t]? = ys[t]? := by
  have h1 : (xs.take (t + 1))[t]? = xs[t]? := by
    rw [List.getElem?_take]
    simp
  have h2 : (ys.take (t + 1))[t]? = ys[t]? := by
    rw [List.getElem?_take]
    simp
  rw [← h1, h, h2]

/-- C1.  Causality of the batch indicator computation: the value of any
indicator column at row t depends only on the first t + 1 rows of the
input frame.  Two frames agreeing on rows 0..t (equal truncations) give
the same value at row t in every column of the battery; in particular,
computing on the frame truncated to its first t + 1 rows reproduces the
value at row t of the full computation, rounding included. -/
theorem C1_causality (sq : ℚ → ℚ) (df dg : Frame) (t : ℕ) (name : String)
    (h : frameTake (t + 1) df = frameTake (t + 1) dg) :
    valueAt (battery sq df) name t = valueAt (battery sq dg) name t := by
  have hd := battery_take sq (t + 1) df
  have hg := battery_take sq (t + 1) dg
  rw [h] at hd
  have hdg := hd.symm.trans hg
  unfold valueAt
  have hl : ((battery sq df).lookup name).map (fun c => c.take (t + 1)) =
      ((battery sq dg).lookup name).map (fun c => c.take (t + 1)) := by
    rw [← lookup_map_take, ← lookup_map_take, hdg]
  cases hdf : (battery sq df).lookup name with
  | none =>
      cases hdg2 : (battery sq dg).lookup name with
      | none => rfl
      | some colB => rw [hdf, hdg2] at hl; simp at hl
  | some colA =>
      cases hdg2 : (battery sq dg).lookup name with
      | none => rw [hdf, hdg2] at hl; simp at hl
      | some colB =>
          rw [hdf, hdg2] at hl
          simp only [Option.map_some'] at hl
          show colA[t]? = colB[t]?
          exact take_succ_getElem t colA colB (Option.some.inj hl)

/-- Frame used by the causality witness. -/
def fwA : Frame := ⟨[10, 11], [12, 13], [9, 10], [11, 12], [100, 200]⟩

/-- The same first two rows, a different third row appended. -/
def fwB : Frame := ⟨[10, 11, 50], [12, 13, 60], [9, 10, 40], [11, 12, 55], [100, 200, 999]⟩

theorem C1_causality_witness :
    frameTake 2 fwA = frameTake 2 fwB ∧
      valueAt (battery id (fwA)) "obv" 1 = valueAt (battery id fwB) "obv" 1 :=
  ⟨by decide, C1_causality id fwA fwB 1 "obv" (by decide)⟩

/-!  EMA bridge: on an all-finite input series the pandas ewm state machine
computes exactly the textbook recurrence with seed equal to the first
input value. -/

/-- The pure EMA recurrence continuing from the running value e. -/
def emaQAux (a : ℚ) (e : ℚ) : List ℚ → List ℚ
  | [] => []
  | x :: t => (a * x + (1 - a) * e) :: emaQAux a (a * x + (1 - a) * e) t

/-- The pure EMA recurrence over a series, seeded at the first input. -/
def emaQ (a : ℚ) : List ℚ → List ℚ
  | [] => []
  | x :: t => x :: emaQAux a x t

theorem ewmStep_fin (a e x : ℚ) :
    ewmStep a (EV.fin e, 1) (EV.fin x) =
      ((EV.fin (a * x + (1 - a) * e), 1), EV.fin (a * x + (1 - a) * e)) := by
  have h1 : (1 : ℚ) * (1 - a) + a = 1 := by ring
  have key : EV.div
      (EV.add (EV.mul (EV.fin (1 * (1 - a))) (EV.fin e)) (EV.mul (EV.fin a) (EV.fin x)))
      (EV.fin (1 * (1 - a) + a)) = EV.fin (a * x + (1 - a) * e) := by
    rw [h1]
    show EV.div (EV.fin (1 * (1 - a) * e + a * x)) (EV.fin 1) = _
    show (if (1 : ℚ) = 0 then (if 1 * (1 - a) * e + a * x = 0 then EV.nan
        else if 0 < 1 * (1 - a) * e + a * x then EV.pinf else EV.ninf)
      else EV.fin ((1 * (1 - a) * e + a * x) / 1)) = _
    rw [if_neg one_ne_zero, div_one]
    congr 1
    ring
  have hne : (EV.fin e) ≠ EV.nan := fun h => EV.noConfusion h
  have hnx : (EV.fin x) ≠ EV.nan := fun h => EV.noConfusion h
  simp only [ewmStep, if_neg hne, if_neg hnx]
  simp only [key]

theorem scanOut_ewm_fin (a : ℚ) (xs : List ℚ) : ∀ e : ℚ,
    scanOut (ewmStep a) (EV.fin e, 1) (mapFinL xs) = mapFinL (emaQAux a e xs) := by
  induction xs with
  | nil => intro e; rfl
  | cons x t ih =>
      intro e
      simp only [mapFinL, List.map_cons, emaQAux]
      rw [scanOut, ewmStep_fin]
      exact congrArg _ (ih (a * x + (1 - a) * e))

theorem ewmMean_fin (a : ℚ) (xs : List ℚ) :
    ewmMean a (mapFinL xs) = mapFinL (emaQ a xs) := by
  cases xs with
  | nil => rfl
  | cons x t =>
      have h0 : ewmStep a (EV.nan, 1) (EV.fin x) = ((EV.fin x, 1), EV.fin x) := by
        simp [ewmStep]
      unfold ewmMean
      simp only [mapFinL, List.map_cons, emaQ]
      rw [scanOut, h0]
      exact congrArg _ (scanOut_ewm_fin a t x)

theorem emaS_fin (s : ℕ) (xs : List ℚ) :
    emaS s (mapFinL xs) = mapFinL (emaQ (2 / (s + 1)) xs) :=
  ewmMean_fin _ xs

theorem emaQAux_length (a : ℚ) (l : List ℚ) : ∀ e : ℚ, (emaQAux a e l).length = l.length := by
  induction l with
  | nil => intro e; rfl
  | cons x t ih => intro e; simp [emaQAux, ih]

theorem emaQ_length (a : ℚ) (l : List ℚ) : (emaQ a l).length = l.length := by
  cases l with
  | nil => rfl
  | cons x t => simp [emaQ, emaQAux_length]

theorem emaQAux_head (a e0 z : ℚ) (l : List ℚ) (h : l[0]? = some z) :
    (emaQAux a e0 l)[0]? = some (a * z + (1 - a) * e0) := by
  cases l with
  | nil => simp at h
  | cons y t =>
      simp only [List.getElem?_cons_zero, Option.some.injEq] at h
      subst h
      simp only [emaQAux, List.getElem?_cons_zero]

theorem emaQAux_rec (a : ℚ) (l : List ℚ) : ∀ (e0 : ℚ) (t : ℕ) (x1 e : ℚ),
    l[t + 1]? = some x1 → (emaQAux a e0 l)[t]? = some e →
    (emaQAux a e0 l)[t + 1]? = some (a * x1 + (1 - a) * e) := by
  induction l with
  | nil => intro e0 t x1 e h _; simp at h
  | cons y t2 ih =>
      intro e0 t x1 e h1 h2
      cases t with
      | zero =>
          simp only [List.getElem?_cons_succ] at h1
          simp only [emaQAux, List.getElem?_cons_zero, Option.some.injEq] at h2
          simp only [emaQAux, List.getElem?_cons_succ]
          rw [emaQAux_head a _ x1 t2 h1, h2]
      | succ t3 =>
          simp only [List.getElem?_cons_succ] at h1
          simp only [emaQAux, List.getElem?_cons_succ] at h2 ⊢
          exact ih _ t3 x1 e h1 h2

theorem emaQ_rec (a : ℚ) (l : List ℚ) (t : ℕ) (x1 e : ℚ)
    (h1 : l[t + 1]? = some x1) (h2 : (emaQ a l)[t]? = some e) :
    (emaQ a l)[t + 1]? = some (a * x1 + (1 - a) * e) := by
  cases l with
  | nil => simp at h1
  | cons y t2 =>
      cases t with
      | zero =>
          simp only [List.getElem?_cons_succ] at h1
          simp only [emaQ, List.getElem?_cons_zero, Option.some.injEq] at h2
          simp only [emaQ, List.getElem?_cons_succ]
          rw [emaQAux_head a _ x1 t2 h1, h2]
      | succ t3 =>
          simp only [List.getElem?_cons_succ] at h1
          simp only [emaQ, List.getElem?_cons_succ] at h2 ⊢
          exact emaQAux_rec a t2 y t3 x1 e h1 h2

/-- C5.  EMA definition and seed, as computed by the engines (both use
ewm(span=s, adjust=False).mean() on the close series, emaS here): on any
input series of finite values with length at least 1 and any span s at
least 1, the output at row 0 is the first input; every later row obeys
EMA[t+1] = alpha * x[t+1] + (1 - alpha) * EMA[t] with
alpha = 2 / (s + 1); and the output is a defined (finite, non-sentinel)
value at every index, with no warm-up NaN period. -/
theorem C5_ema_def (x : List ℚ) (s : ℕ) (hs : 1 ≤ s) (hx : x ≠ []) :
    (∀ x0, x[0]? = some x0 → (emaS s (mapFinL x))[0]? = some (EV.fin x0)) ∧
    (∀ t x1 e, x[t + 1]? = some x1 → (emaS s (mapFinL x))[t]? = some (EV.fin e) →
      (emaS s (mapFinL x))[t + 1]? =
        some (EV.fin (2 / (s + 1) * x1 + (1 - 2 / (s + 1)) * e))) ∧
    (∀ t, t < x.length → ∃ q, (emaS s (mapFinL x))[t]? = some (EV.fin q)) := by
  have hb := emaS_fin s x
  refine ⟨?_, ?_, ?_⟩
  · intro x0 h0
    rw [hb]
    unfold mapFinL
    rw [List.getElem?_map]
    cases x with
    | nil => simp at h0
    | cons y t =>
        simp only [List.getElem?_cons_zero, Option.some.injEq] at h0
        subst h0
        simp only [emaQ, List.getElem?_cons_zero, Option.map_some']
  · intro t x1 e h1 h2
    rw [hb] at h2 ⊢
    unfold mapFinL at h2 ⊢
    rw [List.getElem?_map] at h2 ⊢
    cases he : (emaQ (2 / (s + 1)) x)[t]? with
    | none => rw [he] at h2; simp at h2
    | some e2 =>
        rw [he] at h2
        simp only [Option.map_some', Option.some.injEq, EV.fin.injEq] at h2
        subst h2
        rw [emaQ_rec _ x t x1 e2 h1 he]
        rfl
  · intro t ht
    rw [hb]
    unfold mapFinL
    rw [List.getElem?_map]
    have hlen : t < (emaQ (2 / (s + 1)) x).length := by rw [emaQ_length]; exact ht
    exact ⟨(emaQ (2 / (s + 1)) x)[t], by rw [List.getElem?_eq_getElem hlen]; rfl⟩

theorem C5_ema_def_witness :
    ((1 ≤ 3) ∧ ([(5 : ℚ), 7] ≠ []) ∧
      (emaS 3 (mapFinL [5, 7]))[0]? = some (EV.fin 5)) :=
  ⟨by decide, by decide,
    (C5_ema_def [5, 7] 3 (by decide) (by decide)).1 5 (by decide)⟩

/-!  OBV: the loop of the batch engine satisfies the stated recurrence. -/

theorem zipWith_getElem? {α β γ : Type _} (f : α → β → γ) (as : List α) (bs : List β)
    (i : ℕ) : (List.zipWith f as bs)[i]? = as[i]?.bind (fun a => bs[i]?.map (f a)) := by
  induction as generalizing bs i with
  | nil => simp
  | cons a t ih =>
      cases bs with
      | nil => simp
      | cons b tb =>
          cases i with
          | zero => simp
          | succ j => simpa using ih tb j

theorem obvAux_head (l : List (ℚ × ℚ)) (pc acc c1 v1 : ℚ) (h : l[0]? = some (c1, v1)) :
    (obvAux pc acc l)[0]? =
      some (if pc < c1 then acc + v1 else if c1 < pc then acc - v1 else acc) := by
  cases l with
  | nil => simp at h
  | cons y r =>
      simp only [List.getElem?_cons_zero, Option.some.injEq] at h
      subst h
      simp only [obvAux, List.getElem?_cons_zero]

theorem obvAux_rec (l : List (ℚ × ℚ)) : ∀ (pc acc : ℚ) (t : ℕ) (c0 c1 v1 o : ℚ),
    (l.map Prod.fst)[t]? = some c0 → l[t + 1]? = some (c1, v1) →
    (obvAux pc acc l)[t]? = some o →
    (obvAux pc acc l)[t + 1]? =
      some (if c0 < c1 then o + v1 else if c1 < c0 then o - v1 else o) := by
  induction l with
  | nil => intro pc acc t c0 c1 v1 o h0 _ _; simp at h0
  | cons x l2 ih =>
      obtain ⟨cx, vx⟩ := x
      intro pc acc t c0 c1 v1 o h0 h1 h2
      cases t with
      | zero =>
          simp only [List.map_cons, List.getElem?_cons_zero, Option.some.injEq] at h0
          simp only [List.getElem?_cons_succ] at h1
          simp only [obvAux, List.getElem?_cons_zero, Option.some.injEq] at h2
          simp only [obvAux, List.getElem?_cons_succ]
          rw [h0] at h2
          rw [obvAux_head l2 cx _ c1 v1 h1, h0, h2]
      | succ t2 =>
          simp only [List.map_cons, List.getElem?_cons_succ] at h0
          simp only [List.getElem?_cons_succ] at h1
          simp only [obvAux, List.getElem?_cons_succ] at h2 ⊢
          exact ih _ _ t2 c0 c1 v1 o h0 h1 h2

/-- C6.  OBV recurrence, as computed by the batch engine's loop: on any
well-formed frame, obv[0] = 0, and obv[t+1] adds volume[t+1] when the
close rose, subtracts it when the close fell, and carries over when the
close is unchanged. -/
theorem C6_obv (df : Frame) (hwf : df.WF) :
    (0 < df.close.length → (obvL df.close df.volume)[0]? = some 0) ∧
    (∀ t c0 c1 v1 o, df.close[t]? = some c0 → df.close[t + 1]? = some c1 →
      df.volume[t + 1]? = some v1 → (obvL df.close df.volume)[t]? = some o →
      (obvL df.close df.volume)[t + 1]? =
        some (if c0 < c1 then o + v1 else if c1 < c0 then o - v1 else o)) := by
  obtain ⟨-, -, -, hv⟩ := hwf
  constructor
  · intro hpos
    cases hc : df.close with
    | nil => rw [hc] at hpos; simp at hpos
    | cons y ct =>
        cases hvv : df.volume with
        | nil => rw [hc, hvv] at hv; simp at hv
        | cons w vt =>
            simp only [obvL, List.zip_cons_cons, obvZ, List.getElem?_cons_zero]
  · intro t c0 c1 v1 o h0 h1 h2 h3
    cases hc : df.close with
    | nil => rw [hc] at h0; simp at h0
    | cons y ct =>
        cases hvv : df.volume with
        | nil => rw [hc, hvv] at hv; simp at hv
        | cons w vt =>
            rw [hc, hvv] at hv
            simp only [List.length_cons, Nat.succ.injEq] at hv
            rw [hc] at h0 h1
            rw [hvv] at h2
            rw [hc, hvv] at h3
            simp only [obvL, List.zip_cons_cons, obvZ] at h3 ⊢
            cases t with
            | zero =>
                simp only [List.getElem?_cons_zero, Option.some.injEq] at h0 h3
                simp only [List.getElem?_cons_succ] at h1 h2 ⊢
                have hz : (ct.zip vt)[0]? = some (c1, v1) := by
                  rw [List.zip_eq_zipWith, zipWith_getElem?, h1, h2]
                  rfl
                rw [obvAux_head (ct.zip vt) y 0 c1 v1 hz, h0, h3]
            | succ t2 =>
                simp only [List.getElem?_cons_succ] at h0 h1 h2 h3 ⊢
                have hz : (ct.zip vt)[t2 + 1]? = some (c1, v1) := by
                  rw [List.zip_eq_zipWith, zipWith_getElem?, h1, h2]
                  rfl
                have hmf : ((ct.zip vt).map Prod.fst)[t2]? = some c0 := by
                  rw [List.map_fst_zip ct vt (le_of_eq hv.symm), h0]
                exact obvAux_rec (ct.zip vt) y 0 t2 c0 c1 v1 o hmf hz h3

theorem C6_obv_witness :
    Frame.WF fwA ∧ (obvL fwA.close fwA.volume)[0]? = some 0 :=
  ⟨by decide, (C6_obv fwA (by decide)).1 (by decide)⟩

theorem roundEven_nonneg (x : ℚ) (h0 : 0 ≤ x) : 0 ≤ roundEven x := by
  unfold roundEven
  dsimp only
  have hf : 0 ≤ ⌊x⌋ := Int.floor_nonneg.mpr h0
  split_ifs <;> omega

theorem roundEven_le_int (x : ℚ) (b : ℤ) (h : x ≤ b) : roundEven x ≤ b := by
  unfold roundEven
  have hfb : ⌊x⌋ ≤ b := by
    have := Int.floor_le_floor h
    simpa using this
  have hfx : (⌊x⌋ : ℚ) ≤ x := Int.floor_le x
  dsimp only
  split_ifs with h1 h2 h3
  · exact hfb
  · have hlt : (⌊x⌋ : ℚ) < (b : ℚ) := by linarith
    have : ⌊x⌋ < b := by exact_mod_cast hlt
    omega
  · exact hfb
  · have hlt : (⌊x⌋ : ℚ) < (b : ℚ) := by linarith
    have : ⌊x⌋ < b := by exact_mod_cast hlt
    omega

theorem round2_bounds (q : ℚ) (h0 : 0 ≤ q) (h1 : q ≤ 100) :
    0 ≤ round2 q ∧ round2 q ≤ 100 := by
  unfold round2
  constructor
  · exact div_nonneg (by exact_mod_cast roundEven_nonneg (q * 100) (by positivity))
      (by norm_num)
  · rw [div_le_iff (by norm_num : (0 : ℚ) < 100)]
    have hle := roundEven_le_int (q * 100) 10000 (by push_cast; linarith)
    have : ((roundEven (q * 100) : ℤ) : ℚ) ≤ ((10000 : ℤ) : ℚ) := by exact_mod_cast hle
    calc ((roundEven (q * 100) : ℤ) : ℚ) ≤ ((10000 : ℤ) : ℚ) := this
    _ = 100 * 100 := by norm_num

/-!  RSI bounds: non-negativity of the averaged gains and losses forces
every defined RSI cell into [0, 100]; the zero-average-loss (infinite
ratio) case saturates at exactly 100. -/

/-- Every element is NaN or finite: no infinities in the series. -/
def FinOrNan (l : List EV) : Prop := ∀ v ∈ l, v = EV.nan ∨ ∃ q, v = EV.fin q

/-- Every element is a finite non-negative value. -/
def FinNN (l : List EV) : Prop := ∀ v ∈ l, ∃ q, v = EV.fin q ∧ 0 ≤ q

theorem mem_of_getElem2 {α : Type _} {l : List α} {i : ℕ} {a : α} (h : l[i]? = some a) :
    a ∈ l := by
  obtain ⟨hlt, he⟩ := List.getElem?_eq_some.mp h
  exact he ▸ List.getElem_mem hlt

theorem zip2_elem {g : EV → EV → EV} {xs ys : List EV} {v : EV} (hv : v ∈ zip2 g xs ys) :
    ∃ a b, a ∈ xs ∧ b ∈ ys ∧ v = g a b := by
  obtain ⟨i, hi⟩ := List.mem_iff_getElem?.mp hv
  rw [zip2, zipWith_getElem?] at hi
  cases ha : xs[i]? with
  | none => rw [ha] at hi; simp at hi
  | some a =>
      cases hb : ys[i]? with
      | none => rw [ha, hb] at hi; simp at hi
      | some b =>
          rw [ha, hb] at hi
          simp only [Option.some_bind, Option.map_some', Option.some.injEq] at hi
          exact ⟨a, b, mem_of_getElem2 ha, mem_of_getElem2 hb, hi.symm⟩

theorem shiftN_finOrNan (k : ℕ) (c : List ℚ) : FinOrNan (shiftN k (mapFinL c)) := by
  intro v hv
  unfold shiftN at hv
  have hv2 := List.mem_of_mem_take hv
  rcases List.mem_append.mp hv2 with h | h
  · exact Or.inl (List.eq_of_mem_replicate h)
  · obtain ⟨q, _, hq⟩ := List.mem_map.mp h
    exact Or.inr ⟨q, hq.symm⟩

theorem delta_finOrNan (c : List ℚ) : FinOrNan (diffE (mapFinL c)) := by
  intro v hv
  obtain ⟨a, b, ha, hb, hv⟩ := zip2_elem hv
  obtain ⟨qa, -, hqa⟩ := List.mem_map.mp ha
  rcases shiftN_finOrNan 1 c b hb with rfl | ⟨qb, rfl⟩
  · subst hv hqa
    exact Or.inl rfl
  · subst hv hqa
    exact Or.inr ⟨qa - qb, by simp [EV.sub, EV.neg, EV.add, sub_eq_add_neg]⟩

theorem gain_nn (l : List EV) (hl : FinOrNan l) :
    FinNN (pmap (fun v => if EV.lt (EV.fin 0) v then v else EV.fin 0) l) := by
  intro v hv
  obtain ⟨w, hw, hv⟩ := List.mem_map.mp hv
  rcases hl w hw with rfl | ⟨q, rfl⟩
  · exact ⟨0, by simp [← hv, EV.lt], le_refl 0⟩
  · by_cases hq : 0 < q
    · exact ⟨q, by simp [← hv, EV.lt, hq], le_of_lt hq⟩
    · exact ⟨0, by simp [← hv, EV.lt, hq], le_refl 0⟩

theorem loss_nn (l : List EV) (hl : FinOrNan l) :
    FinNN (pmap (fun v => EV.neg (if EV.lt v (EV.fin 0) then v else EV.fin 0)) l) := by
  intro v hv
  obtain ⟨w, hw, hv⟩ := List.mem_map.mp hv
  rcases hl w hw with rfl | ⟨q, rfl⟩
  · exact ⟨0, by simp [← hv, EV.lt, EV.neg], le_refl 0⟩
  · by_cases hq : q < 0
    · exact ⟨-q, by simp [← hv, EV.lt, EV.neg, hq], by linarith⟩
    · exact ⟨0, by simp [← hv, EV.lt, EV.neg, hq], le_refl 0⟩

theorem foldl_add_nn : ∀ l : List EV, FinNN l → ∀ acc : ℚ, 0 ≤ acc →
    ∃ q, l.foldl EV.add (EV.fin acc) = EV.fin q ∧ 0 ≤ q := by
  intro l
  induction l with
  | nil => intro _ acc ha; exact ⟨acc, rfl, ha⟩
  | cons x t ih =>
      intro hl acc ha
      have ht : FinNN t := fun v hv => hl v (List.mem_cons_of_mem x hv)
      obtain ⟨qx, rfl, hqx⟩ := hl x (List.mem_cons_self x t)
      have hstep : (EV.fin qx :: t).foldl EV.add (EV.fin acc) =
          t.foldl EV.add (EV.fin (acc + qx)) := rfl
      rw [hstep]
      exact ih ht (acc + qx) (by linarith)

theorem sumE_nn (l : List EV) (hl : FinNN l) : ∃ q, sumE l = EV.fin q ∧ 0 ≤ q :=
  foldl_add_nn l hl 0 le_rfl

theorem rollingW_getElem (w : ℕ) (g : List EV → EV) (l : List EV) (t : ℕ) (v : EV)
    (hv : (rollingW w g l)[t]? = some v) :
    v = EV.nan ∨ (v = g ((l.take (t + 1)).drop (t + 1 - w)) ∧
      ∀ u ∈ (l.take (t + 1)).drop (t + 1 - w), u ∈ l) := by
  unfold rollingW at hv
  rw [List.getElem?_map] at hv
  by_cases ht : t < l.length
  · rw [List.getElem?_range ht] at hv
    simp only [Option.map_some', Option.some.injEq] at hv
    by_cases hnan : hasNan ((l.take (t + 1)).drop (t + 1 - w)) = true
    · rw [if_pos hnan] at hv
      exact Or.inl hv.symm
    · rw [if_neg hnan] at hv
      by_cases hw : w ≤ t + 1
      · rw [if_pos hw] at hv
        exact Or.inr ⟨hv.symm,
          fun u hu => List.mem_of_mem_take (List.mem_of_mem_drop hu)⟩
      · rw [if_neg hw] at hv
        exact Or.inl hv.symm
  · rw [List.getElem?_eq_none (by simpa using not_lt.mp ht)] at hv
    simp at hv

theorem rollingMean_nn (w : ℕ) (hw : 1 ≤ w) (l : List EV) (hl : FinNN l) (t : ℕ) (v : EV)
    (hv : (rollingMean w l)[t]? = some v) :
    v = EV.nan ∨ ∃ q, v = EV.fin q ∧ 0 ≤ q := by
  rcases rollingW_getElem w _ l t v hv with h | ⟨hv2, hsub⟩
  · exact Or.inl h
  · right
    have hwin : FinNN ((l.take (t + 1)).drop (t + 1 - w)) := fun u hu => hl u (hsub u hu)
    obtain ⟨qs, hsum, hqs⟩ := sumE_nn _ hwin
    have hwq : ((w : ℚ)) ≠ 0 := by
      have : (0 : ℚ) < (w : ℚ) := by exact_mod_cast Nat.lt_of_lt_of_le Nat.zero_lt_one hw
      linarith
    refine ⟨qs / w, ?_, div_nonneg hqs (by positivity)⟩
    rw [hv2, hsum]
    show EV.div (EV.fin qs) (EV.fin w) = EV.fin (qs / w)
    simp only [EV.div, if_neg hwq]

/-- C7.  RSI bounds: wherever rsi_p (and its rounded engine output) is a
defined finite value, it lies in [0, 100]; in the zero-average-loss case
with positive average gain the ratio is +infinity and the value is exactly
100, and when both averages are zero the cell is NaN (excluded as
undefined). -/
theorem C7_rsi_bounds (df : Frame) (p : ℕ) (hp : 1 ≤ p) :
    (∀ (t : ℕ) (q : ℚ), (rsiC p df)[t]? = some (EV.fin q) → 0 ≤ q ∧ q ≤ 100) ∧
    (∀ (t : ℕ) (q : ℚ), (roundCol (rsiC p df))[t]? = some (EV.fin q) → 0 ≤ q ∧ q ≤ 100) := by
  have hgainNN : FinNN (pmap (fun v => if EV.lt (EV.fin 0) v then v else EV.fin 0)
      (deltaC df)) := gain_nn _ (delta_finOrNan df.close)
  have hlossNN : FinNN (pmap (fun v => EV.neg (if EV.lt v (EV.fin 0) then v else EV.fin 0))
      (deltaC df)) := loss_nn _ (delta_finOrNan df.close)
  have core : ∀ (t : ℕ) (q : ℚ), (rsiC p df)[t]? = some (EV.fin q) → 0 ≤ q ∧ q ≤ 100 := by
    intro t q h
    unfold rsiC at h
    unfold pmap at h
    rw [List.getElem?_map] at h
    cases hr : (zip2 EV.div (rsiGainC p df) (rsiLossC p df))[t]? with
    | none => rw [hr] at h; simp at h
    | some r =>
        rw [hr] at h
        simp only [Option.map_some', Option.some.injEq] at h
        rw [zip2, zipWith_getElem?] at hr
        cases hg : (rsiGainC p df)[t]? with
        | none => rw [hg] at hr; simp at hr
        | some gv =>
            cases hlv : (rsiLossC p df)[t]? with
            | none => rw [hg, hlv] at hr; simp at hr
            | some lv =>
                rw [hg, hlv] at hr
                simp only [Option.some_bind, Option.map_some', Option.some.injEq] at hr
                subst hr
                rcases rollingMean_nn p hp _ hgainNN t gv hg with rfl | ⟨ga, rfl, hga⟩
                · exfalso
                  revert h
                  cases lv <;> simp [EV.div, EV.add, EV.sub, EV.neg]
                · rcases rollingMean_nn p hp _ hlossNN t lv hlv with rfl | ⟨lb, rfl, hlb⟩
                  · exfalso
                    revert h
                    simp [EV.div, EV.add, EV.sub, EV.neg]
                  · by_cases hlb0 : lb = 0
                    · subst hlb0
                      by_cases hga0 : ga = 0
                      · exfalso
                        revert h
                        subst hga0
                        simp [EV.div, EV.add, EV.sub, EV.neg]
                      · have hgapos : 0 < ga := lt_of_le_of_ne hga (Ne.symm hga0)
                        have hdiv : EV.div (EV.fin ga) (EV.fin 0) = EV.pinf := by
                          simp [EV.div, hga0, hgapos]
                        rw [hdiv] at h
                        have : EV.sub (EV.fin 100)
                            (EV.div (EV.fin 100) (EV.add (EV.fin 1) EV.pinf)) =
                            EV.fin 100 := by
                          simp [EV.add, EV.div, EV.sub, EV.neg]
                        rw [this] at h
                        obtain rfl : (100 : ℚ) = q := EV.fin.inj h
                        constructor <;> norm_num
                    · have hlbpos : 0 < lb := lt_of_le_of_ne hlb (Ne.symm hlb0)
                      have hdiv : EV.div (EV.fin ga) (EV.fin lb) = EV.fin (ga / lb) := by
                        simp [EV.div, hlb0]
                      rw [hdiv] at h
                      have hrq : 0 ≤ ga / lb := div_nonneg hga hlb
                      have hden : (1 : ℚ) + ga / lb ≠ 0 := by linarith
                      have hadd : EV.add (EV.fin 1) (EV.fin (ga / lb)) =
                          EV.fin (1 + ga / lb) := rfl
                      rw [hadd] at h
                      have hdiv2 : EV.div (EV.fin 100) (EV.fin (1 + ga / lb)) =
                          EV.fin (100 / (1 + ga / lb)) := by
                        simp [EV.div, hden]
                      rw [hdiv2] at h
                      have hsub : EV.sub (EV.fin 100) (EV.fin (100 / (1 + ga / lb))) =
                          EV.fin (100 - 100 / (1 + ga / lb)) := by
                        simp [EV.sub, EV.neg, EV.add, sub_eq_add_neg]
                      rw [hsub] at h
                      simp only [EV.fin.injEq] at h
                      subst h
                      have hdpos : 0 < 100 / (1 + ga / lb) := by positivity
                      have hdle : 100 / (1 + ga / lb) ≤ 100 := by
                        rw [div_le_iff (by linarith : (0 : ℚ) < 1 + ga / lb)]
                        nlinarith
                      constructor <;> linarith
  refine ⟨core, ?_⟩
  intro t q h
  unfold roundCol pmap at h
  rw [List.getElem?_map] at h
  cases hr : (rsiC p df)[t]? with
  | none => rw [hr] at h; simp at h
  | some v =>
      rw [hr] at h
      simp only [Option.map_some', Option.some.injEq] at h
      cases v with
      | fin q2 =>
          have hb := core t q2 hr
          have : round2 q2 = q := by
            have : roundE (EV.fin q2) = EV.fin (round2 q2) := rfl
            rw [this] at h
            exact (EV.fin.injEq _ _).mp h
          subst this
          exact round2_bounds q2 hb.1 hb.2
      | pinf => exact absurd h (by simp [roundE])
      | ninf => exact absurd h (by simp [roundE])
      | nan => exact absurd h (by simp [roundE])


theorem C7_rsi_bounds_witness :
    (1 ≤ 1) ∧ (rsiC 1 fwA)[1]? = some (EV.fin 100) ∧ (0 ≤ (100 : ℚ) ∧ (100 : ℚ) ≤ 100) := by
  have hcell : (rsiC 1 fwA)[1]? = some (EV.fin 100) := by
    norm_num [rsiC, rsiGainC, rsiLossC, deltaC, closeE, fwA, mapFinL, pmap, zip2, diffE,
      shiftE, shiftN, rollingMean, rollingW, sumE, EV.lt, EV.sub, EV.neg, EV.add, EV.div,
      EV.mul, List.range_succ, List.zipWith, List.foldl, hasNan]
  exact ⟨le_refl 1, hcell, (C7_rsi_bounds fwA 1 (le_refl 1)).1 1 100 hcell⟩

/-!  Pointwise computation lemmas on extended values, and cell extraction
helpers, used by the division-by-zero and Keltner analyses. -/

theorem EV.fin_ne_nan (q : ℚ) : EV.fin q ≠ EV.nan := fun h => EV.noConfusion h

theorem EV.add_fin (a b : ℚ) : EV.add (EV.fin a) (EV.fin b) = EV.fin (a + b) := rfl

theorem EV.sub_fin (a b : ℚ) : EV.sub (EV.fin a) (EV.fin b) = EV.fin (a - b) := by
  simp [EV.sub, EV.neg, EV.add, sub_eq_add_neg]

theorem EV.mul_fin (a b : ℚ) : EV.mul (EV.fin a) (EV.fin b) = EV.fin (a * b) := rfl

theorem EV.div_fin (a b : ℚ) (hb : b ≠ 0) :
    EV.div (EV.fin a) (EV.fin b) = EV.fin (a / b) := by
  simp [EV.div, hb]

theorem EV.div_zero_zero : EV.div (EV.fin 0) (EV.fin 0) = EV.nan := by
  simp [EV.div]

theorem EV.nan_mul (x : EV) : EV.mul EV.nan x = EV.nan := by
  cases x <;> rfl

theorem mapFinL_cell {l : List ℚ} {t : ℕ} {q : ℚ} (h : l[t]? = some q) :
    (mapFinL l)[t]? = some (EV.fin q) := by
  unfold mapFinL
  rw [List.getElem?_map, h]
  rfl

theorem pmap_cell {g : EV → EV} {xs : List EV} {t : ℕ} {v : EV} (h : xs[t]? = some v) :
    (pmap g xs)[t]? = some (g v) := by
  unfold pmap
  rw [List.getElem?_map, h]
  rfl

theorem zip2_cell {g : EV → EV → EV} {xs ys : List EV} {t : ℕ} {a b : EV}
    (ha : xs[t]? = some a) (hb : ys[t]? = some b) :
    (zip2 g xs ys)[t]? = some (g a b) := by
  rw [zip2, zipWith_getElem?, ha, hb]
  rfl

theorem cumsumE_nan_cell : ∀ (xs : List EV) (acc : EV) (t : ℕ), xs[t]? = some EV.nan →
    (scanOut cumStep acc xs)[t]? = some EV.nan := by
  intro xs
  induction xs with
  | nil => intro acc t h; simp at h
  | cons x t2 ih =>
      intro acc t h
      cases t with
      | zero =>
          simp only [List.getElem?_cons_zero, Option.some.injEq] at h
          subst h
          simp [scanOut, cumStep]
      | succ t3 =>
          simp only [List.getElem?_cons_succ] at h
          simp only [scanOut, List.getElem?_cons_succ]
          exact ih _ t3 h

/-- Division-by-zero frame: a single bar with high = low = close. -/
def fw2 : Frame := ⟨[10], [10], [10], [10], [100]⟩

/-- C2 counterexample.  In the generator script, the zero-denominator
(high = low = close) cell of the A/D line is not the sentinel: the
fillna(0) call turns the NaN money-flow multiplier into 0 and the written
cell is the finite value 0. -/
theorem C2_divzero_counterexample :
    (adLineGenC fw2)[0]? = some (EV.fin 0) ∧ EV.fin 0 ≠ EV.nan := by
  constructor
  · norm_num [adLineGenC, clvC, closeE, highE, lowE, volE, fw2, mapFinL, zip2, pmap,
      fillna0, cumsumE, scanOut, cumStep, EV.sub, EV.neg, EV.add, EV.div, EV.mul,
      EV.fin_ne_nan]
  · exact fun h => EV.noConfusion h

/-- C2 amended.  In the batch engine a zero denominator with zero
numerator (high = low with close equal to them) leaves NaN, the sentinel,
in the affected ad_line and intraday_intensity cells, and no exception is
raised (the computation is total); RSI's zero-average-loss rows with
positive average gain produce the saturated defined value 100 (not a
sentinel); and the generator script's fillna(0) turns the A/D-line
multiplier NaN into the silent zero 0. -/
theorem C2_divzero_amended (df : Frame) (t : ℕ) (hq lq cq vq : ℚ)
    (hh : df.high[t]? = some hq) (hl : df.low[t]? = some lq)
    (hc : df.close[t]? = some cq) (hv : df.volume[t]? = some vq)
    (heq : hq = lq) (hceq : cq = hq) :
    (adLineC df)[t]? = some EV.nan ∧
    (intradayC df)[t]? = some EV.nan ∧
    (pmap fillna0 (clvC df))[t]? = some (EV.fin 0) ∧
    (∀ (p : ℕ) (ga : ℚ), 0 < ga → (rsiGainC p df)[t]? = some (EV.fin ga) →
      (rsiLossC p df)[t]? = some (EV.fin 0) → (rsiC p df)[t]? = some (EV.fin 100)) := by
  subst heq hceq
  have hcE := mapFinL_cell hc
  have hhE := mapFinL_cell hh
  have hlE := mapFinL_cell hl
  have hvE := mapFinL_cell hv
  have hclv : (clvC df)[t]? = some EV.nan := by
    unfold clvC closeE highE lowE
    rw [zip2_cell (zip2_cell (zip2_cell hcE hlE) (zip2_cell hhE hcE))
      (zip2_cell hhE hlE)]
    simp [EV.sub_fin, sub_self, EV.div_zero_zero]
  refine ⟨?_, ?_, ?_, ?_⟩
  · unfold adLineC cumsumE volE
    apply cumsumE_nan_cell
    rw [zip2_cell hclv hvE, EV.nan_mul]
  · unfold intradayC closeE highE lowE volE
    rw [zip2_cell (zip2_cell (zip2_cell (zip2_cell (pmap_cell hcE) hhE) hlE)
      (zip2_cell hhE hlE)) hvE]
    have h2 : 2 * cq - cq - cq = 0 := by ring
    simp [EV.mul_fin, EV.sub_fin, sub_self, h2, EV.div_zero_zero, EV.nan_mul]
  · rw [pmap_cell hclv]
    simp [fillna0]
  · intro p ga hga hgain hloss
    unfold rsiC
    rw [pmap_cell (zip2_cell hgain hloss)]
    have hdiv : EV.div (EV.fin ga) (EV.fin 0) = EV.pinf := by
      simp [EV.div, ne_of_gt hga, hga]
    rw [hdiv]
    have : EV.sub (EV.fin 100) (EV.div (EV.fin 100) (EV.add (EV.fin 1) EV.pinf)) =
        EV.fin 100 := by
      simp [EV.add, EV.div, EV.sub, EV.neg]
    rw [this]

theorem C2_divzero_amended_witness :
    (fw2.high[0]? = some 10 ∧ fw2.low[0]? = some 10 ∧ fw2.close[0]? = some 10 ∧
      fw2.volume[0]? = some 100) ∧ (adLineC fw2)[0]? = some EV.nan :=
  ⟨⟨rfl, rfl, rfl, rfl⟩,
    (C2_divzero_amended fw2 0 10 10 10 100 rfl rfl rfl rfl rfl rfl).1⟩

/-- The engine succeeds on any complete, non-empty frame. -/
theorem calcAll_ok (sq : ℚ → ℚ) (rf : RawFrame) (h1 : requiredMissing rf = [])
    (h2 : rf.toFrame.len ≠ 0) :
    calculate_all_indicators sq rf = .ok (battery sq rf.toFrame) := by
  unfold calculate_all_indicators
  rw [h1]
  simp [h2]

/-!  Oversized windows: rolling operators degrade to all-NaN columns, while
the exponential family stays defined from row 0 whatever the span. -/

theorem rollingW_oversized (w : ℕ) (g : List EV → EV) (l : List EV) (hw : l.length < w) :
    ∀ v ∈ rollingW w g l, v = EV.nan := by
  intro v hv
  unfold rollingW at hv
  obtain ⟨i, hi, hv⟩ := List.mem_map.mp hv
  rw [List.mem_range] at hi
  split_ifs at hv with h1 h2
  · exact hv.symm
  · omega
  · exact hv.symm

/-- Every element is a finite value. -/
def AllFin (l : List EV) : Prop := ∀ v ∈ l, ∃ q, v = EV.fin q

theorem allFin_mapFinL (l : List ℚ) : AllFin (mapFinL l) := by
  intro v hv
  obtain ⟨q, -, hq⟩ := List.mem_map.mp hv
  exact ⟨q, hq.symm⟩

theorem allFin_pmap_mul (c : ℚ) (l : List EV) (hl : AllFin l) :
    AllFin (pmap (EV.mul (EV.fin c)) l) := by
  intro v hv
  obtain ⟨w2, hw2, hv⟩ := List.mem_map.mp hv
  obtain ⟨q, rfl⟩ := hl w2 hw2
  exact ⟨c * q, by rw [← hv, EV.mul_fin]⟩

theorem allFin_zip2_sub (as bs : List EV) (ha : AllFin as) (hb : AllFin bs) :
    AllFin (zip2 EV.sub as bs) := by
  intro v hv
  obtain ⟨a, b, hma, hmb, rfl⟩ := zip2_elem hv
  obtain ⟨qa, rfl⟩ := ha a hma
  obtain ⟨qb, rfl⟩ := hb b hmb
  exact ⟨qa - qb, EV.sub_fin qa qb⟩

theorem allFin_zip2_add (as bs : List EV) (ha : AllFin as) (hb : AllFin bs) :
    AllFin (zip2 EV.add as bs) := by
  intro v hv
  obtain ⟨a, b, hma, hmb, rfl⟩ := zip2_elem hv
  obtain ⟨qa, rfl⟩ := ha a hma
  obtain ⟨qb, rfl⟩ := hb b hmb
  exact ⟨qa + qb, EV.add_fin qa qb⟩

theorem allFin_emaS (s : ℕ) (l : List ℚ) : AllFin (emaS s (mapFinL l)) := by
  rw [emaS_fin]
  exact allFin_mapFinL _

/-- C3 counterexample.  A span larger than the series length does not make
the EMA column all-sentinel: ewm(span=3, adjust=False) on the one-element
series [1] outputs the defined value 1 at row 0. -/
theorem C3_oversized_counterexample :
    (mapFinL [1]).length < 3 ∧ emaS 3 (mapFinL [1]) = [EV.fin 1] ∧
      EV.fin 1 ≠ EV.nan :=
  ⟨by decide, rfl, fun h => EV.noConfusion h⟩

/-- C3 amended.  For a window w larger than the series length, SMA, WMA,
rolling std and rolling max/min are entirely sentinel; but EMA (and hence
DEMA and TEMA) are defined (finite) at every row for any span, because the
recursion is seeded at row 0; and the batch engine completes without
error on any complete non-empty frame, however short. -/
theorem C3_oversized_amended (sq : ℚ → ℚ) (w s : ℕ) (df : Frame) (hwf : df.WF)
    (hw : df.close.length < w) :
    (∀ v ∈ smaC w df, v = EV.nan) ∧
    (∀ v ∈ wmaC w df, v = EV.nan) ∧
    (∀ v ∈ stdC sq w df, v = EV.nan) ∧
    (∀ v ∈ rollingMax w (highE df), v = EV.nan) ∧
    (∀ v ∈ rollingMin w (lowE df), v = EV.nan) ∧
    (∀ v ∈ emaC s df, ∃ q, v = EV.fin q) ∧
    (∀ v ∈ demaC s df, ∃ q, v = EV.fin q) ∧
    (∀ v ∈ temaC s df, ∃ q, v = EV.fin q) ∧
    (∀ rf : RawFrame, requiredMissing rf = [] → rf.toFrame.len ≠ 0 →
      calculate_all_indicators sq rf = .ok (battery sq rf.toFrame)) := by
  obtain ⟨-, hhl, hll, -⟩ := hwf
  have hclen : (closeE df).length < w := by
    simpa [closeE, mapFinL] using hw
  have hhlen : (highE df).length < w := by
    simp only [highE, mapFinL, List.length_map]
    omega
  have hllen : (lowE df).length < w := by
    simp only [lowE, mapFinL, List.length_map]
    omega
  have hA1 : AllFin (emaS s (closeE df)) := allFin_emaS s df.close
  have hA2 : AllFin (emaS s (emaS s (closeE df))) := by
    show AllFin (emaS s (emaS s (mapFinL df.close)))
    rw [emaS_fin]
    exact allFin_emaS _ _
  have hA3 : AllFin (emaS s (emaS s (emaS s (closeE df)))) := by
    show AllFin (emaS s (emaS s (emaS s (mapFinL df.close))))
    rw [emaS_fin, emaS_fin]
    exact allFin_emaS _ _
  refine ⟨rollingW_oversized w (fun l => EV.div (sumE l) (EV.fin w)) (closeE df) hclen,
    rollingW_oversized w wmaG (closeE df) hclen,
    rollingW_oversized w (stdG sq) (closeE df) hclen,
    rollingW_oversized w (fun l => l.foldl EV.maxSk EV.nan) (highE df) hhlen,
    rollingW_oversized w (fun l => l.foldl EV.minSk EV.nan) (lowE df) hllen,
    hA1, ?_, ?_, ?_⟩
  · exact allFin_zip2_sub _ _ (allFin_pmap_mul 2 _ hA1) hA2
  · exact allFin_zip2_add _ _
      (allFin_zip2_sub _ _ (allFin_pmap_mul 3 _ hA1) (allFin_pmap_mul 3 _ hA2)) hA3
  · intro rf h1 h2
    exact calcAll_ok sq rf h1 h2

theorem C3_oversized_amended_witness :
    (Frame.WF fw2 ∧ fw2.close.length < 5) ∧ (∀ v ∈ smaC 5 fw2, v = EV.nan) :=
  ⟨⟨by decide, by decide⟩, (C3_oversized_amended id 5 3 fw2 (by decide) (by decide)).1⟩

/-!  Keltner channels: the batch engine's basis is the EMA of close, not of
the typical price. -/

/-- Keltner counterexample frame: one bar with close = low = 1, high = 4,
so the typical price (4 + 1 + 1) / 3 = 2 differs from close = 1. -/
def fw8 : Frame := ⟨[1], [4], [1], [1], [1]⟩

/-- C8 counterexample.  kc_middle at row 0 is the EMA of close (value 1),
not the EMA of the typical price (value 2). -/
theorem C8_keltner_counterexample :
    (kcMidC fw8)[0]? = some (EV.fin 1) ∧
    (emaS 20 (typicalC fw8))[0]? = some (EV.fin 2) ∧
    (kcMidC fw8)[0]? ≠ (emaS 20 (typicalC fw8))[0]? := by
  have h1 : (kcMidC fw8)[0]? = some (EV.fin 1) := rfl
  have h2 : (emaS 20 (typicalC fw8))[0]? = some (EV.fin 2) := by
    norm_num [typicalC, highE, lowE, closeE, fw8, mapFinL, zip2, pmap, emaS, ewmMean,
      scanOut, ewmStep, EV.add, EV.div, EV.fin_ne_nan]
  refine ⟨h1, h2, ?_⟩
  rw [h1, h2]
  intro h
  exact absurd (EV.fin.inj (Option.some.inj h)) (by norm_num)

/-- C8 amended.  The batch engine's Keltner basis kc_middle is the
ewm(span 20) of the close series (satisfying the EMA recurrence on close,
seed close[0]), and before the final rounding pass
kc_upper / kc_lower = kc_middle plus/minus 2 times ATR(14) cell by cell. -/
theorem C8_keltner_amended (df : Frame) :
    kcMidC df = mapFinL (emaQ (2 / (20 + 1)) df.close) ∧
    (∀ c0, df.close[0]? = some c0 → (kcMidC df)[0]? = some (EV.fin c0)) ∧
    (∀ (t : ℕ) (m a : EV), (kcMidC df)[t]? = some m → (atrC 14 df)[t]? = some a →
      (kcUpC df)[t]? = some (EV.add m (EV.mul (EV.fin 2) a)) ∧
      (kcLoC df)[t]? = some (EV.sub m (EV.mul (EV.fin 2) a))) := by
  have hb := emaS_fin 20 df.close
  have hb2 : kcMidC df = mapFinL (emaQ (2 / (20 + 1)) df.close) := by
    show emaS 20 (mapFinL df.close) = _
    rw [hb]
    norm_num
  refine ⟨hb2, ?_, ?_⟩
  · intro c0 h0
    rw [hb2]
    cases hc : df.close with
    | nil => rw [hc] at h0; simp at h0
    | cons y t =>
        rw [hc] at h0
        simp only [List.getElem?_cons_zero, Option.some.injEq] at h0
        subst h0
        simp only [emaQ, mapFinL, List.map_cons, List.getElem?_cons_zero]
  · intro t m a hm ha
    constructor
    · show (zip2 EV.add (kcMidC df) (pmap (EV.mul (EV.fin 2)) (atrC 14 df)))[t]? = _
      rw [zip2_cell hm (pmap_cell ha)]
    · show (zip2 EV.sub (kcMidC df) (pmap (EV.mul (EV.fin 2)) (atrC 14 df)))[t]? = _
      rw [zip2_cell hm (pmap_cell ha)]

theorem C8_keltner_amended_witness :
    (kcMidC fw2)[0]? = some (EV.fin 10) ∧ (atrC 14 fw2)[0]? = some EV.nan ∧
      (kcUpC fw2)[0]? = some (EV.add (EV.fin 10) (EV.mul (EV.fin 2) EV.nan)) := by
  have h1 : (kcMidC fw2)[0]? = some (EV.fin 10) := rfl
  have h2 : (atrC 14 fw2)[0]? = some EV.nan := rfl
  exact ⟨h1, h2, ((C8_keltner_amended fw2).2.2 0 (EV.fin 10) EV.nan h1 h2).1⟩

/-!  The retention sweep: staleness, column validation, rewrite. -/

/-- A stale persisted frame lacking the volume column. -/
def rfStaleNoVol : RawFrame := ⟨some [0], some [1], some [1], some [1], some [1], none⟩

/-- A fresh persisted frame lacking the volume column. -/
def rfFreshNoVol : RawFrame := ⟨some [20], some [1], some [1], some [1], some [1], none⟩

/-- C4 counterexample.  A frame missing the volume column whose newest
date is older than the cutoff is deleted by the sweep: the file on disk is
removed, not left unchanged, and no missing-column error is reported. -/
theorem C4_missing_column_counterexample :
    process_single_file id rfStaleNoVol 10 = (PStatus.deleted, FileEffect.removed) ∧
      FileEffect.removed ≠ FileEffect.unchanged :=
  ⟨rfl, fun h => FileEffect.noConfusion h⟩

/-- C4 amended.  The batch engine rejects a frame missing a required
column before any computation, naming the first missing column; and in
the sweep, for frames whose newest date is not older than the cutoff, a
missing price column yields the error outcome naming all missing columns
with the file left unchanged.  (A stale frame missing columns is instead
deleted; see the counterexample.) -/
theorem C4_missing_column_amended (sq : ℚ → ℚ) (rf : RawFrame) (cutoff : ℤ) :
    (∀ c cs, requiredMissing rf = c :: cs →
      calculate_all_indicators sq rf = .error (.engineMissing c)) ∧
    (∀ ds m c cs, rf.date = some ds → ds.max? = some m → ¬ m < cutoff →
      requiredMissing rf = c :: cs →
      process_single_file sq rf cutoff =
        (.err (.missingCols (c :: cs)), .unchanged)) := by
  constructor
  · intro c cs h
    unfold calculate_all_indicators
    rw [h]
  · intro ds m c cs hd hm hlt h
    unfold process_single_file
    simp only [hd, hm, if_neg hlt]
    unfold processCols
    rw [h]

theorem C4_missing_column_amended_witness :
    (rfFreshNoVol.date = some [20] ∧ ([20] : List ℤ).max? = some 20 ∧
      ¬ ((20 : ℤ) < 10) ∧ requiredMissing rfFreshNoVol = ["volume"]) ∧
    process_single_file id rfFreshNoVol 10 =
      (PStatus.err (ErrKind.missingCols ["volume"]), FileEffect.unchanged) :=
  ⟨⟨rfl, rfl, by decide, by decide⟩,
    (C4_missing_column_amended id rfFreshNoVol 10).2 [20] 20 "volume" [] rfl rfl
      (by decide) (by decide)⟩

/-- C9.  Retention sweep outcome on a complete per-ticker frame with a
parsable, non-empty date column: strictly older than the cutoff means the
file is deleted and recorded as deleted; otherwise all indicator columns
are recomputed and the file is rewritten with them appended, recorded as
updated, and not deleted. -/
theorem C9_retention_sweep (sq : ℚ → ℚ) (rf : RawFrame) (cutoff : ℤ) (ds : List ℤ)
    (m : ℤ) (hd : rf.date = some ds) (hm : ds.max? = some m)
    (hcomplete : requiredMissing rf = []) (hnonempty : rf.toFrame.len ≠ 0) :
    (m < cutoff → process_single_file sq rf cutoff = (.deleted, .removed)) ∧
    (¬ m < cutoff → process_single_file sq rf cutoff =
      (.updated, .written rf (battery sq rf.toFrame))) := by
  constructor
  · intro h
    unfold process_single_file
    simp only [hd, hm, if_pos h]
  · intro h
    unfold process_single_file
    simp only [hd, hm, if_neg h]
    unfold processCols
    simp only [hcomplete, calcAll_ok sq rf hcomplete hnonempty]

/-- Complete one-bar frames for the retention witness, 200 and 100 days
old against a 180-day horizon. -/
def rf9a : RawFrame := ⟨some [800], some [1], some [2], some [1], some [1], some [5]⟩

def rf9b : RawFrame := ⟨some [900], some [1], some [2], some [1], some [1], some [5]⟩

theorem C9_retention_sweep_witness :
    ((800 : ℤ) < sweepCutoff 1000 ∧ ¬ ((900 : ℤ) < sweepCutoff 1000) ∧
      requiredMissing rf9a = [] ∧ rf9a.toFrame.len ≠ 0) ∧
    process_single_file id rf9a (sweepCutoff 1000) = (PStatus.deleted, FileEffect.removed) ∧
    process_single_file id rf9b (sweepCutoff 1000) =
      (PStatus.updated, FileEffect.written rf9b (battery id rf9b.toFrame)) :=
  ⟨⟨by decide, by decide, by decide, by decide⟩,
    (C9_retention_sweep id rf9a (sweepCutoff 1000) [800] 800 rfl rfl (by decide)
      (by decide)).1 (by decide),
    (C9_retention_sweep id rf9b (sweepCutoff 1000) [900] 900 rfl rfl (by decide)
      (by decide)).2 (by decide)⟩

/-- C10.  The staleness check precedes the price-column validation: a
frame with parsable dates whose maximum is older than the cutoff is
deleted (file removed) regardless of which required columns are missing,
and a missing-price-column error outcome can only arise when the maximum
date is at or after the cutoff. -/
theorem C10_stale_precedes_validation (sq : ℚ → ℚ) (rf : RawFrame) (cutoff : ℤ)
    (ds : List ℤ) (m : ℤ) (hd : rf.date = some ds) (hm : ds.max? = some m) :
    (m < cutoff → process_single_file sq rf cutoff = (.deleted, .removed)) ∧
    (∀ cs eff, process_single_file sq rf cutoff = (.err (.missingCols cs), eff) →
      ¬ m < cutoff) := by
  constructor
  · intro h
    unfold process_single_file
    simp only [hd, hm, if_pos h]
  · intro cs eff hp hlt
    unfold process_single_file at hp
    simp only [hd, hm, if_pos hlt] at hp
    exact PStatus.noConfusion (congrArg Prod.fst hp)

theorem C10_stale_precedes_validation_witness :
    (rfStaleNoVol.date = some [0] ∧ ([0] : List ℤ).max? = some 0 ∧ (0 : ℤ) < 10 ∧
      requiredMissing rfStaleNoVol ≠ []) ∧
    process_single_file id rfStaleNoVol 10 = (PStatus.deleted, FileEffect.removed) :=
  ⟨⟨rfl, rfl, by decide, by decide⟩,
    (C10_stale_precedes_validation id rfStaleNoVol 10 [0] 0 rfl rfl).1 (by decide)⟩

end LocalFinData
